import Mathlib

/-!
Row-wise sample standard deviation (`which_rows_with_no_sd.cpp`).

A shallow embedding of the numeric kernel (`CalculateMean`, `CalculateVariance`,
`Calculate_StandardDeviation`) and of the row-wise transformation
`which_rows_with_no_sd_cpp`, followed by theorems about them.

Conventions of the embedding.

* A C `double` is a value of `Dbl`: an exact rational, one of the two infinities,
  or NaN.  The arithmetic follows IEEE 754 on the special values (`0/0 = NaN`,
  `x/0 = ±∞`, `∞ - ∞ = NaN`, NaN is absorbing).  Rounding, overflow of finite
  values and the sign of zero are not represented: finite arithmetic is exact.
* An access outside an array or a matrix is undefined behaviour in the program;
  the embedding is total and returns `none` there.
* `int` counters are natural numbers (no wrap-around is modelled); `size - 1`
  is computed over the integers, as in the program, so it is `-1` for `size = 0`.
* The library functions the program calls but does not define are either written
  out from their library contract (`atof`) or passed in (`Lib.sqrt`, `Lib.render`).
-/

namespace Ctr

/-! ## Doubles -/

/-- Values of a C `double`: a finite number, plus or minus infinity, or NaN. -/
inductive Dbl where
  | fin (q : ℚ)
  | pinf
  | ninf
  | nan
  deriving DecidableEq

namespace Dbl

/-- Conversion of an `int` to `double`. -/
def ofInt (n : Int) : Dbl := fin n

/-- Sum of two doubles. -/
def add : Dbl → Dbl → Dbl
  | nan, _ => nan
  | _, nan => nan
  | pinf, ninf => nan
  | ninf, pinf => nan
  | pinf, _ => pinf
  | _, pinf => pinf
  | ninf, _ => ninf
  | _, ninf => ninf
  | fin a, fin b => fin (a + b)

/-- Negation of a double. -/
def neg : Dbl → Dbl
  | nan => nan
  | pinf => ninf
  | ninf => pinf
  | fin a => fin (-a)

/-- Difference of two doubles. -/
def sub (a b : Dbl) : Dbl := add a (neg b)

/-- An infinity of the given sign (`true` is negative). -/
def infOfSign (negative : Bool) : Dbl := if negative then ninf else pinf

/-- Product of two doubles. -/
def mul : Dbl → Dbl → Dbl
  | nan, _ => nan
  | _, nan => nan
  | pinf, pinf => pinf
  | pinf, ninf => ninf
  | ninf, pinf => ninf
  | ninf, ninf => pinf
  | pinf, fin b => if b = 0 then nan else infOfSign (decide (b < 0))
  | ninf, fin b => if b = 0 then nan else infOfSign (decide (0 < b))
  | fin a, pinf => if a = 0 then nan else infOfSign (decide (a < 0))
  | fin a, ninf => if a = 0 then nan else infOfSign (decide (0 < a))
  | fin a, fin b => fin (a * b)

/-- Quotient of two doubles.  A zero divisor is the positive zero, which is the
only zero an `int` converts to. -/
def div : Dbl → Dbl → Dbl
  | nan, _ => nan
  | _, nan => nan
  | pinf, pinf => nan
  | pinf, ninf => nan
  | ninf, pinf => nan
  | ninf, ninf => nan
  | pinf, fin b => infOfSign (decide (b < 0))
  | ninf, fin b => infOfSign (decide (0 ≤ b))
  | fin _, pinf => fin 0
  | fin _, ninf => fin 0
  | fin a, fin b =>
    if b = 0 then
      if a = 0 then nan else infOfSign (decide (a < 0))
    else fin (a / b)

instance : Add Dbl := ⟨add⟩
instance : Sub Dbl := ⟨sub⟩
instance : Mul Dbl := ⟨mul⟩
instance : Div Dbl := ⟨div⟩
instance : Neg Dbl := ⟨neg⟩
instance : Zero Dbl := ⟨fin 0⟩

/-- Conversion of a `double` to the unsigned index type of a matrix subscript:
truncation toward zero; undefined when the truncated value is not an index. -/
def toIndex : Dbl → Option Nat
  | fin q => if -1 < q then some (Int.toNat (Rat.floor q)) else none
  | _ => none

end Dbl

/-! ## Library functions the program calls -/

/-- The functions the program takes from libraries whose result is not an exact
rational function of the argument: `sqrt` of `math.h`, and the conversion of a
`double` to the text of a matrix cell performed by the assignment
`out(i, x.ncol()) = stdev`. -/
structure Lib where
  sqrt : Dbl → Dbl
  render : Dbl → String

/-! ### `atof`

The program converts the text of a cell with `atof`, which is `strtod` without
the end pointer.  The text it converts is the longest initial part of the
input, after leading white space, that has the form of an optionally signed
decimal number (digits with an optional point and an optional exponent), a
hexadecimal number (`0x`, hexadecimal digits with an optional point, an
optional binary exponent), `inf`/`infinity` or `nan` in any letter case.  When
there is no such part the result is zero.  The value is kept exact here. -/

/-- White space of the C locale. -/
def isSpace (c : Char) : Bool :=
  decide (c.toNat = 32 ∨ (9 ≤ c.toNat ∧ c.toNat ≤ 13))

/-- Decimal digits. -/
def isDigit (c : Char) : Bool := decide (48 ≤ c.toNat ∧ c.toNat ≤ 57)

/-- Hexadecimal digits. -/
def isHexDigit (c : Char) : Bool :=
  isDigit c || decide (97 ≤ c.toNat ∧ c.toNat ≤ 102) || decide (65 ≤ c.toNat ∧ c.toNat ≤ 70)

/-- Value of a hexadecimal digit (of a decimal digit in particular). -/
def digitVal (c : Char) : Nat :=
  if isDigit c then c.toNat - 48
  else if 97 ≤ c.toNat then c.toNat - 87
  else c.toNat - 55

/-- Value of a digit string in the given base. -/
def digitsVal (base : Nat) (ds : List Char) : Nat :=
  ds.foldl (fun acc c => base * acc + digitVal c) 0

/-- Does the text start with `inf`, in any letter case? -/
def startsInf : List Char → Bool
  | a :: b :: c :: _ =>
    decide ((a = 'i' ∨ a = 'I') ∧ (b = 'n' ∨ b = 'N') ∧ (c = 'f' ∨ c = 'F'))
  | _ => false

/-- Does the text start with `nan`, in any letter case? -/
def startsNan : List Char → Bool
  | a :: b :: c :: _ =>
    decide ((a = 'n' ∨ a = 'N') ∧ (b = 'a' ∨ b = 'A') ∧ (c = 'n' ∨ c = 'N'))
  | _ => false

/-- The exponent part: the marker (given in lower and upper case), an optional
sign and decimal digits; `0` when the text does not start with one. -/
def parseExp (lo up : Char) : List Char → Int
  | [] => 0
  | c :: t =>
    if c = lo ∨ c = up then
      match t with
      | [] => 0
      | s :: u =>
        if s = '-' then -(digitsVal 10 (u.takeWhile isDigit) : Int)
        else if s = '+' then (digitsVal 10 (u.takeWhile isDigit) : Int)
        else (digitsVal 10 ((s :: u).takeWhile isDigit) : Int)
    else 0

/-- The digits after the point, when the text starts with a point. -/
def fracDigits (digit : Char → Bool) : List Char → List Char
  | [] => []
  | c :: t => if c = '.' then t.takeWhile digit else []

/-- What follows the digits after the point (the text itself when it does not
start with a point). -/
def afterFrac (digit : Char → Bool) : List Char → List Char
  | [] => []
  | c :: t => if c = '.' then t.dropWhile digit else c :: t

/-- A number in the given base (`10` with exponent marker `e` or `E` and
exponent base `10`, or `16` with marker `p` or `P` and exponent base `2`): `none`
when the text has no digit before or after the point. -/
def parseNumber (digit : Char → Bool) (base : Nat) (lo up : Char) (ebase : ℚ)
    (cs : List Char) : Option ℚ :=
  let ip := cs.takeWhile digit
  let fp := fracDigits digit (cs.dropWhile digit)
  let rest := afterFrac digit (cs.dropWhile digit)
  if ip = [] ∧ fp = [] then none
  else some ((digitsVal base (ip ++ fp) : ℚ) / (base : ℚ) ^ fp.length * ebase ^ parseExp lo up rest)

/-- The hexadecimal number after a `0x` or `0X`, when the text starts so. -/
def parseHex : List Char → Option ℚ
  | z :: c :: t =>
    if z = '0' ∧ (c = 'x' ∨ c = 'X') then parseNumber isHexDigit 16 'p' 'P' 2 t else none
  | _ => none

/-- The value of the text once white space and sign are gone. -/
def parseMagnitude (cs : List Char) : Dbl :=
  if startsInf cs then Dbl.pinf
  else if startsNan cs then Dbl.nan
  else
    match parseHex cs with
    | some q => Dbl.fin q
    | none =>
      match parseNumber isDigit 10 'e' 'E' 10 cs with
      | some q => Dbl.fin q
      | none => Dbl.fin 0

/-- The text once leading white space and an optional sign are gone. -/
def magnitudeText (cs : List Char) : List Char :=
  match cs.dropWhile isSpace with
  | [] => []
  | c :: t => if c = '-' ∨ c = '+' then t else c :: t

/-- Does the text carry a minus sign after its leading white space? -/
def hasMinus (cs : List Char) : Bool :=
  match cs.dropWhile isSpace with
  | [] => false
  | c :: _ => c = '-'

/-- The value of a text: white space, an optional sign, the magnitude. -/
def parseSigned (cs : List Char) : Dbl :=
  if hasMinus cs then Dbl.neg (parseMagnitude (magnitudeText cs))
  else parseMagnitude (magnitudeText cs)

/-- The text of a C string: the characters before its first NUL. -/
def cText (a : String) : List Char :=
  a.toList.takeWhile fun c => c.toNat ≠ 0

/-- The library function `atof` applied to `a.c_str()`. -/
def atof (a : String) : Dbl :=
  parseSigned (cText a)

/-! ## Character matrices -/

/-- An R character matrix: `nrow` rows, `ncol` columns, and the text of the
cell at each position.  Only positions inside the shape are ever looked at. -/
structure CharacterMatrix where
  nrow : Nat
  ncol : Nat
  cell : Nat → Nat → String

namespace CharacterMatrix

/-- The matrix `CharacterMatrix out(r, c)`: every cell is the empty string. -/
def new (r c : Nat) : CharacterMatrix := ⟨r, c, fun _ _ => ""⟩

/-- Reading `x(i, j)`; `none` outside the matrix. -/
def get? (x : CharacterMatrix) (i j : Nat) : Option String :=
  if i < x.nrow ∧ j < x.ncol then some (x.cell i j) else none

/-- Writing `x(i, j) = v`; `none` outside the matrix. -/
def set? (x : CharacterMatrix) (i j : Nat) (v : String) : Option CharacterMatrix :=
  if i < x.nrow ∧ j < x.ncol then
    some ⟨x.nrow, x.ncol, fun a b => if a = i ∧ b = j then v else x.cell a b⟩
  else none

/-- Row `i` of a matrix as a list of cells. -/
def row (x : CharacterMatrix) (i : Nat) : List String :=
  (List.range x.ncol).map (x.cell i)

/-- The rows of a matrix, top to bottom. -/
def toRows (x : CharacterMatrix) : List (List String) :=
  (List.range x.nrow).map x.row

/-- The matrix with `c` columns whose rows are the given lists. -/
def ofRows (c : Nat) (rows : List (List String)) : CharacterMatrix :=
  ⟨rows.length, c, fun i j => (rows.getD i []).getD j ""⟩

end CharacterMatrix

/-! ## Loops and buffers -/

/-- The loop `for (int i = 0; i < n; i++) s = body(i, s)`, stopping with `none` as
soon as an iteration is undefined. -/
def forUpTo {σ : Type} : Nat → (Nat → σ → Option σ) → σ → Option σ
  | 0, _, s => some s
  | n + 1, body, s => (forUpTo n body s).bind (body n)

/-- Writing `a[i] = v` in a buffer; `none` outside the buffer. -/
def setAt? {α : Type} (a : List α) (i : Nat) (v : α) : Option (List α) :=
  if i < a.length then some (a.set i v) else none

/-! ## The numeric kernel -/

/-- The function `CalculateMean` of the program. -/
def CalculateMean (values : List Dbl) (size : Nat) : Option Dbl :=
  (forUpTo size (fun i sum => (values.get? i).map fun v => sum + v) (Dbl.ofInt 0)).map
    fun sum => sum / Dbl.ofInt size

/-- The function `CalculateVariance` of the program. -/
def CalculateVariance (values : List Dbl) (mean : Dbl) (size : Nat) : Option Dbl :=
  (forUpTo size
      (fun i temp => (values.get? i).map fun v => temp + (v - mean) * (v - mean))
      (Dbl.ofInt 0)).map
    fun temp => temp / Dbl.ofInt ((size : Int) - 1)

/-- The function `Calculate_StandardDeviation` of the program. -/
def Calculate_StandardDeviation (L : Lib) (values : List Dbl) (size : Nat) : Option Dbl :=
  (CalculateMean values size).bind fun mean =>
    (CalculateVariance values mean size).map L.sqrt

/-! ## The row-wise transformation -/

/-- The loop that fills `expressions` for row `i`: slot `j` receives the parsed
text of the cell at row `i` and column `sampleCols[j]`. -/
def extractExpressions (x : CharacterMatrix) (sampleCols : List Dbl) (i colSize : Nat)
    (expressions : List Dbl) : Option (List Dbl) :=
  forUpTo colSize
    (fun j e =>
      (sampleCols.get? j).bind fun col =>
      (Dbl.toIndex col).bind fun c =>
      (x.get? i c).bind fun a =>
      let expression := atof a
      setAt? e j expression)
    expressions

/-- The loop that copies row `i` of `x` into `out`. -/
def copyRow (x : CharacterMatrix) (i : Nat) (out : CharacterMatrix) : Option CharacterMatrix :=
  forUpTo x.ncol (fun j o => (x.get? i j).bind fun v => o.set? i j v) out

/-- The body of the loop over the rows.  The buffer `expressions` has `colSize`
slots (none when `colSize` is zero) and is declared without initial values;
every slot is written before it is read, and it is filled with NaN here. -/
def rowBody (L : Lib) (x : CharacterMatrix) (sampleCols : List Dbl) (colSize : Nat)
    (i : Nat) (out : CharacterMatrix) : Option CharacterMatrix :=
  (extractExpressions x sampleCols i colSize (List.replicate colSize Dbl.nan)).bind
    fun expressions =>
  (Calculate_StandardDeviation L expressions colSize).bind fun stdev =>
  (copyRow x i out).bind fun out1 =>
  out1.set? i x.ncol (L.render stdev)

/-- The function `which_rows_with_no_sd_cpp` of the program. -/
def which_rows_with_no_sd_cpp (L : Lib) (x : CharacterMatrix) (sampleCols : List Dbl) :
    Option CharacterMatrix :=
  let colSize := sampleCols.length
  let out := CharacterMatrix.new x.nrow (x.ncol + 1)
  forUpTo x.nrow (rowBody L x sampleCols colSize) out

/-! ## Closed forms

The kernel on a whole list of values, and the values and shape that the
transformation works with; the theorems relate the loops to them. -/

/-- The sum accumulated by the loop of `CalculateMean`, divided by the count. -/
def meanOf (vals : List Dbl) : Dbl :=
  vals.foldl (fun sum v => sum + v) (Dbl.ofInt 0) / Dbl.ofInt vals.length

/-- The sum accumulated by the loop of `CalculateVariance`, divided by the
count less one. -/
def varianceOf (vals : List Dbl) (mean : Dbl) : Dbl :=
  vals.foldl (fun temp v => temp + (v - mean) * (v - mean)) (Dbl.ofInt 0)
    / Dbl.ofInt ((vals.length : Int) - 1)

/-- The standard deviation of a list of values, as the kernel computes it. -/
def stdevOf (L : Lib) (vals : List Dbl) : Dbl :=
  L.sqrt (varianceOf vals (meanOf vals))

/-- The column a sample entry designates (`0` when the entry designates none). -/
def colIndex (d : Dbl) : Nat := (Dbl.toIndex d).getD 0

/-- A sample entry designates a column of a matrix with `c` columns. -/
def ValidCol (c : Nat) (d : Dbl) : Prop :=
  match Dbl.toIndex d with
  | some n => n < c
  | none => False

instance (c : Nat) (d : Dbl) : Decidable (ValidCol c d) := by
  unfold ValidCol; cases Dbl.toIndex d <;> infer_instance

/-- Every sample entry designates a column of a matrix with `c` columns. -/
def ValidCols (c : Nat) (sampleCols : List Dbl) : Prop :=
  ∀ d ∈ sampleCols, ValidCol c d

instance (c : Nat) (s : List Dbl) : Decidable (ValidCols c s) := by
  unfold ValidCols; infer_instance

/-- The parsed sample values of row `i`, in the order of `sampleCols`. -/
def sampleValues (x : CharacterMatrix) (sampleCols : List Dbl) (i : Nat) : List Dbl :=
  sampleCols.map fun d => atof (x.cell i (colIndex d))

/-- The output grid on valid input: the input cells, then the rendered standard
deviation of the row. -/
def augmented (L : Lib) (x : CharacterMatrix) (sampleCols : List Dbl) : CharacterMatrix :=
  ⟨x.nrow, x.ncol + 1, fun a b =>
    if a < x.nrow then
      if b < x.ncol then x.cell a b
      else if b = x.ncol then L.render (stdevOf L (sampleValues x sampleCols a))
      else ""
    else ""⟩

/-! ## The statistic in the words of the specification -/

/-- The arithmetic mean: the sum of the values divided by their number. -/
def specMean (values : List Dbl) : Dbl :=
  values.sum / Dbl.ofInt (values.length : Nat)

/-- The unbiased sample variance: the sum of the squared deviations from the
mean, divided by the number of values less one. -/
def specVariance (values : List Dbl) : Dbl :=
  (values.map fun v => (v - specMean values) * (v - specMean values)).sum
    / Dbl.ofInt ((values.length - 1 : Nat) : Int)

/-- The sample standard deviation: the square root of the sample variance. -/
def specStdev (L : Lib) (values : List Dbl) : Dbl :=
  L.sqrt (specVariance values)

/-! ## Texts, for the statements about the conversion -/

/-- Does the text begin with a digit, or with a point and a digit? -/
def startsNumber : List Char → Bool
  | [] => false
  | c :: t =>
    isDigit c || (decide (c = '.') && (match t with
      | [] => false
      | d :: _ => isDigit d))

/-- A text with no numeric beginning: after white space and an optional sign it
begins with neither a digit, nor a point and a digit, nor `inf` nor `nan` in any
letter case. -/
def NoConversion (a : String) : Prop :=
  startsNumber (magnitudeText (cText a)) = false
    ∧ startsInf (magnitudeText (cText a)) = false
    ∧ startsNan (magnitudeText (cText a)) = false

instance (a : String) : Decidable (NoConversion a) := by
  unfold NoConversion; infer_instance

/-- The characters of an optional sign (`true` is the minus sign). -/
def signPart : Option Bool → List Char
  | none => []
  | some true => ['-']
  | some false => ['+']

/-- The characters of an optional fraction: the point and the digits after it. -/
def pointPart : Option (List Char) → List Char
  | none => []
  | some f => '.' :: f

/-- The text of a decimal number: an optional sign, the digits of the whole
part, and optionally a point and the digits of the fraction. -/
def decimalText (sign : Option Bool) (whole : List Char) (frac : Option (List Char)) :
    List Char :=
  signPart sign ++ (whole ++ pointPart frac)

/-- The number a decimal text denotes. -/
def decimalValue (sign : Option Bool) (whole : List Char) (frac : Option (List Char)) : ℚ :=
  (if sign = some true then -1 else 1)
    * ((digitsVal 10 whole : ℚ)
        + (digitsVal 10 (frac.getD []) : ℚ) / (10 : ℚ) ^ (frac.getD []).length)

/-! ## The statistic on exact numbers -/

/-- The mean of a list of rational numbers. -/
def exactMean (qs : List ℚ) : ℚ := qs.sum / (qs.length : ℚ)

/-- The sum of the squared deviations of rational numbers from `m`. -/
def sumSq (qs : List ℚ) (m : ℚ) : ℚ := (qs.map fun q => (q - m) * (q - m)).sum

/-- The sample variance of a list of rational numbers. -/
def exactVariance (qs : List ℚ) : ℚ := sumSq qs (exactMean qs) / ((qs.length : ℚ) - 1)

/-! ## Reference library, for concrete runs -/

/-- The largest `k` not above the bound whose square is at most `n`. -/
def isqrtBelow (n : Nat) : Nat → Nat
  | 0 => 0
  | k + 1 => if (k + 1) * (k + 1) ≤ n then k + 1 else isqrtBelow n k

/-- The integer square root. -/
def isqrt (n : Nat) : Nat := isqrtBelow n n

/-- A square root that is exact on the squares of rationals, as a correctly
rounded `sqrt` is, and follows IEEE 754 on the other values: NaN for NaN and
for negative arguments, infinity for infinity. -/
def sqrtRef : Dbl → Dbl
  | Dbl.nan => Dbl.nan
  | Dbl.ninf => Dbl.nan
  | Dbl.pinf => Dbl.pinf
  | Dbl.fin q =>
    if q < 0 then Dbl.nan
    else Dbl.fin ((isqrt q.num.toNat : ℚ) / (isqrt q.den : ℚ))

/-- A rendering of a double as text: `NaN`, `Inf`, `-Inf`, the decimal digits of
an integer, and numerator and denominator for other finite values. -/
def renderRef : Dbl → String
  | Dbl.nan => "NaN"
  | Dbl.pinf => "Inf"
  | Dbl.ninf => "-Inf"
  | Dbl.fin q => if q.den = 1 then toString q.num else toString q.num ++ "/" ++ toString q.den

/-- The reference library. -/
def refLib : Lib := ⟨sqrtRef, renderRef⟩

/-! ## Loop lemmas -/

theorem forUpTo_succ {σ : Type} (n : Nat) (body : Nat → σ → Option σ) (s : σ) :
    forUpTo (n + 1) body s = (forUpTo n body s).bind (body n) := rfl

/-- A loop that reads `vals[i]` at step `i` and folds it into the state computes
the left fold of the first `n` values. -/
theorem forUpTo_fold {σ : Type} (vals : List Dbl) (f : σ → Dbl → σ) (a : σ) :
    ∀ n, n ≤ vals.length →
      forUpTo n (fun i s => (vals.get? i).map fun v => f s v) a
        = some ((vals.take n).foldl f a)
  | 0, _ => by simp [forUpTo]
  | n + 1, h => by
    have hn : n < vals.length := h
    rw [forUpTo_succ, forUpTo_fold vals f a n (Nat.le_of_lt hn)]
    have ht : vals.take (n + 1) = vals.take n ++ [vals[n]] := by
      rw [List.take_succ, List.getElem?_eq_getElem hn]; rfl
    rw [ht, List.foldl_append, List.get?_eq_getElem?, List.getElem?_eq_getElem hn]
    rfl

theorem CalculateMean_eq (vals : List Dbl) :
    CalculateMean vals vals.length = some (meanOf vals) := by
  unfold CalculateMean meanOf
  rw [forUpTo_fold vals _ _ vals.length le_rfl]
  simp

theorem CalculateVariance_eq (vals : List Dbl) (mean : Dbl) :
    CalculateVariance vals mean vals.length = some (varianceOf vals mean) := by
  unfold CalculateVariance varianceOf
  rw [forUpTo_fold vals (fun temp v => temp + (v - mean) * (v - mean)) _ vals.length le_rfl]
  simp

theorem Calculate_StandardDeviation_eq (L : Lib) (vals : List Dbl) :
    Calculate_StandardDeviation L vals vals.length = some (stdevOf L vals) := by
  simp [Calculate_StandardDeviation, CalculateMean_eq, CalculateVariance_eq, stdevOf]

theorem validCol_spec {c : Nat} {d : Dbl} (h : ValidCol c d) :
    Dbl.toIndex d = some (colIndex d) ∧ colIndex d < c := by
  unfold ValidCol at h
  unfold colIndex
  cases hd : Dbl.toIndex d with
  | none => simp [hd] at h
  | some n => simpa [hd] using h

/-- The state of the buffer after `n` iterations of the extraction loop. -/
theorem extract_steps (x : CharacterMatrix) (sampleCols : List Dbl) (i : Nat)
    (hi : i < x.nrow) (hv : ValidCols x.ncol sampleCols) (e0 : List Dbl)
    (he : e0.length = sampleCols.length) :
    ∀ n, n ≤ sampleCols.length →
      extractExpressions x sampleCols i n e0
        = some ((sampleValues x sampleCols i).take n ++ e0.drop n)
  | 0, _ => by simp [extractExpressions, forUpTo]
  | n + 1, h => by
    have hn : n < sampleCols.length := h
    have ih := extract_steps x sampleCols i hi hv e0 he n (Nat.le_of_lt hn)
    unfold extractExpressions at ih ⊢
    rw [forUpTo_succ, ih]
    obtain ⟨h1, h2⟩ := validCol_spec (hv _ (List.getElem_mem hn))
    have hlen : ((sampleValues x sampleCols i).take n).length = n := by
      simp [sampleValues, Nat.le_of_lt hn]
    have hn0 : n < e0.length := he ▸ hn
    have hsv : n < (sampleValues x sampleCols i).length := by simpa [sampleValues] using hn
    have ht : (sampleValues x sampleCols i).take (n + 1)
        = (sampleValues x sampleCols i).take n ++ [atof (x.cell i (colIndex sampleCols[n]))] := by
      rw [List.take_succ, List.getElem?_eq_getElem hsv]
      simp [sampleValues]
    have hd : e0.drop n = e0[n] :: e0.drop (n + 1) := List.drop_eq_getElem_cons hn0
    simp only [Option.bind_eq_bind, Option.some_bind, List.get?_eq_getElem?,
      List.getElem?_eq_getElem hn, h1, CharacterMatrix.get?, hi, h2, and_self, if_true, setAt?]
    rw [if_pos (by simp [hlen, hn0]), ht]
    congr 1
    rw [List.set_append, if_neg (by omega), hlen, Nat.sub_self, hd, List.set_cons_zero,
      List.append_assoc]
    rfl

theorem extract_eq (x : CharacterMatrix) (sampleCols : List Dbl) (i : Nat)
    (hi : i < x.nrow) (hv : ValidCols x.ncol sampleCols) :
    extractExpressions x sampleCols i sampleCols.length
        (List.replicate sampleCols.length Dbl.nan)
      = some (sampleValues x sampleCols i) := by
  rw [extract_steps x sampleCols i hi hv _ (by simp) _ le_rfl]
  simp [sampleValues]

/-- The output after `n` iterations of the copying loop. -/
theorem copy_steps (x : CharacterMatrix) (i : Nat) (hi : i < x.nrow) (out : CharacterMatrix)
    (hr : out.nrow = x.nrow) (hc : out.ncol = x.ncol + 1) :
    ∀ n, n ≤ x.ncol →
      forUpTo n (fun j o => (x.get? i j).bind fun v => o.set? i j v) out
        = some ⟨out.nrow, out.ncol, fun a b => if a = i ∧ b < n then x.cell a b else out.cell a b⟩
  | 0, _ => by simp [forUpTo]
  | n + 1, h => by
    have hn : n < x.ncol := h
    rw [forUpTo_succ, copy_steps x i hi out hr hc n (Nat.le_of_lt hn)]
    simp only [Option.bind_eq_bind, Option.some_bind, CharacterMatrix.get?, hi, hn, and_self,
      if_true, CharacterMatrix.set?, hr, hc]
    rw [if_pos ⟨trivial, Nat.lt_succ_of_lt hn⟩]
    congr 2
    funext a b
    by_cases ha : a = i
    · subst ha
      by_cases hb : b = n
      · simp [hb]
      · by_cases hb2 : b < n
        · simp [hb, hb2, Nat.lt_succ_of_lt hb2]
        · have : ¬ b < n + 1 := by omega
          simp [hb, hb2, this]
    · simp [ha]

theorem rowBody_eq (L : Lib) (x : CharacterMatrix) (sampleCols : List Dbl) (i : Nat)
    (hi : i < x.nrow) (hv : ValidCols x.ncol sampleCols) (out : CharacterMatrix)
    (hr : out.nrow = x.nrow) (hc : out.ncol = x.ncol + 1) :
    rowBody L x sampleCols sampleCols.length i out
      = some ⟨out.nrow, out.ncol, fun a b =>
          if a = i then
            if b < x.ncol then x.cell a b
            else if b = x.ncol then L.render (stdevOf L (sampleValues x sampleCols a))
            else out.cell a b
          else out.cell a b⟩ := by
  unfold rowBody copyRow
  rw [extract_eq x sampleCols i hi hv, copy_steps x i hi out hr hc x.ncol le_rfl]
  have hl : sampleCols.length = (sampleValues x sampleCols i).length := by simp [sampleValues]
  simp only [Option.bind_eq_bind, Option.some_bind]
  rw [hl, Calculate_StandardDeviation_eq]
  simp only [Option.some_bind, CharacterMatrix.set?, hr, hc, hi, true_and]
  rw [if_pos (by omega)]
  congr 2
  funext a b
  by_cases ha : a = i
  · subst ha
    by_cases hb : b = x.ncol
    · simp [hb]
    · by_cases hb2 : b < x.ncol
      · simp [hb, hb2]
      · simp [hb, hb2]
  · simp [ha]

/-- The output after `n` iterations of the loop over the rows. -/
theorem rows_steps (L : Lib) (x : CharacterMatrix) (sampleCols : List Dbl)
    (hv : ValidCols x.ncol sampleCols) :
    ∀ n, n ≤ x.nrow →
      forUpTo n (rowBody L x sampleCols sampleCols.length)
          (CharacterMatrix.new x.nrow (x.ncol + 1))
        = some ⟨x.nrow, x.ncol + 1, fun a b =>
            if a < n then
              if b < x.ncol then x.cell a b
              else if b = x.ncol then L.render (stdevOf L (sampleValues x sampleCols a))
              else ""
            else ""⟩
  | 0, _ => by simp [forUpTo, CharacterMatrix.new]
  | n + 1, h => by
    have hn : n < x.nrow := h
    rw [forUpTo_succ, rows_steps L x sampleCols hv n (Nat.le_of_lt hn)]
    simp only [Option.bind_eq_bind, Option.some_bind]
    rw [rowBody_eq L x sampleCols n hn hv ⟨x.nrow, x.ncol + 1, _⟩ rfl rfl]
    congr 2
    funext a b
    by_cases ha : a = n
    · subst ha
      simp
    · by_cases ha2 : a < n
      · simp [ha, ha2, Nat.lt_succ_of_lt ha2]
      · have : ¬ a < n + 1 := by omega
        simp [ha, ha2, this]

/-- On valid input the transformation returns the augmented grid. -/
theorem which_rows_eq (L : Lib) (x : CharacterMatrix) (sampleCols : List Dbl)
    (hv : ValidCols x.ncol sampleCols) :
    which_rows_with_no_sd_cpp L x sampleCols = some (augmented L x sampleCols) := by
  unfold which_rows_with_no_sd_cpp augmented
  exact rows_steps L x sampleCols hv x.nrow le_rfl


/-! ## Arithmetic of doubles -/

theorem dbl_add_def (a b : Dbl) : a + b = Dbl.add a b := rfl

theorem dbl_zero_def : (0 : Dbl) = Dbl.fin 0 := rfl

theorem dbl_ofInt_zero : Dbl.ofInt 0 = 0 := by simp [Dbl.ofInt, dbl_zero_def]

theorem dbl_add_zero (a : Dbl) : a + 0 = a := by
  cases a <;> simp [dbl_add_def, dbl_zero_def, Dbl.add]

theorem dbl_zero_add (a : Dbl) : 0 + a = a := by
  cases a <;> simp [dbl_add_def, dbl_zero_def, Dbl.add]

theorem dbl_add_assoc (a b c : Dbl) : a + b + c = a + (b + c) := by
  cases a <;> cases b <;> cases c <;> simp [dbl_add_def, Dbl.add, add_assoc]

/-- The accumulation loop adds up the terms from left to right, which gives the
sum of the list of terms. -/
theorem foldl_add_eq_sum (g : Dbl → Dbl) (vals : List Dbl) (a : Dbl) :
    vals.foldl (fun t v => t + g v) a = a + (vals.map g).sum := by
  induction vals generalizing a with
  | nil => simp [dbl_add_zero]
  | cons v vs ih => simp [ih, dbl_add_assoc]

theorem meanOf_eq_specMean (vals : List Dbl) : meanOf vals = specMean vals := by
  unfold meanOf specMean
  have h := foldl_add_eq_sum id vals (Dbl.ofInt 0)
  simp only [id, List.map_id_fun] at h
  rw [h, dbl_ofInt_zero, dbl_zero_add]

theorem varianceOf_eq_specVariance (vals : List Dbl) (h2 : 2 ≤ vals.length) :
    varianceOf vals (meanOf vals) = specVariance vals := by
  unfold varianceOf specVariance
  rw [foldl_add_eq_sum (fun v => (v - meanOf vals) * (v - meanOf vals)) vals,
    dbl_ofInt_zero, dbl_zero_add, meanOf_eq_specMean]
  congr 2
  omega

theorem stdevOf_eq_specStdev (L : Lib) (vals : List Dbl) (h2 : 2 ≤ vals.length) :
    stdevOf L vals = specStdev L vals := by
  unfold stdevOf specStdev
  rw [varianceOf_eq_specVariance vals h2]

theorem augmented_get_old (L : Lib) (x : CharacterMatrix) (s : List Dbl) (i j : Nat)
    (hi : i < x.nrow) (hj : j < x.ncol) :
    (augmented L x s).get? i j = some (x.cell i j) := by
  simp [augmented, CharacterMatrix.get?, hi, hj, Nat.lt_succ_of_lt hj]

theorem augmented_get_new (L : Lib) (x : CharacterMatrix) (s : List Dbl) (i : Nat)
    (hi : i < x.nrow) :
    (augmented L x s).get? i x.ncol = some (L.render (stdevOf L (sampleValues x s i))) := by
  simp [augmented, CharacterMatrix.get?, hi]

theorem augmented_row (L : Lib) (x : CharacterMatrix) (s : List Dbl) (i : Nat)
    (hi : i < x.nrow) :
    (augmented L x s).row i = x.row i ++ [L.render (stdevOf L (sampleValues x s i))] := by
  simp only [CharacterMatrix.row, augmented, hi, if_true]
  rw [List.range_succ, List.map_append]
  congr 1
  · apply List.map_congr_left
    intro j hj
    simp [List.mem_range.mp hj]
  · simp

theorem augmented_toRows (L : Lib) (x : CharacterMatrix) (s : List Dbl) :
    (augmented L x s).toRows
      = (List.range x.nrow).map fun i =>
          x.row i ++ [L.render (stdevOf L (sampleValues x s i))] := by
  unfold CharacterMatrix.toRows
  apply List.map_congr_left
  intro i hi
  exact augmented_row L x s i (List.mem_range.mp hi)

theorem dbl_sub_def (a b : Dbl) : a - b = Dbl.add a (Dbl.neg b) := rfl

theorem dbl_mul_def (a b : Dbl) : a * b = Dbl.mul a b := rfl

theorem dbl_div_def (a b : Dbl) : a / b = Dbl.div a b := rfl

theorem atof_2 : atof "2" = Dbl.fin 2 := by
  simp [atof, cText, parseSigned, hasMinus, magnitudeText, parseMagnitude, startsInf, startsNan,
    parseHex, parseNumber, isSpace, isDigit, fracDigits, afterFrac, digitsVal, parseExp, digitVal]

theorem atof_4 : atof "4" = Dbl.fin 4 := by
  simp [atof, cText, parseSigned, hasMinus, magnitudeText, parseMagnitude, startsInf, startsNan,
    parseHex, parseNumber, isSpace, isDigit, fracDigits, afterFrac, digitsVal, parseExp, digitVal]

theorem atof_6 : atof "6" = Dbl.fin 6 := by
  simp [atof, cText, parseSigned, hasMinus, magnitudeText, parseMagnitude, startsInf, startsNan,
    parseHex, parseNumber, isSpace, isDigit, fracDigits, afterFrac, digitsVal, parseExp, digitVal]

/-- A loop with an iteration that is undefined in every state is undefined. -/
theorem forUpTo_none {σ : Type} (body : Nat → σ → Option σ) (m : Nat)
    (hm : ∀ s, body m s = none) : ∀ n, m < n → ∀ s, forUpTo n body s = none
  | 0, h, _ => absurd h (Nat.not_lt_zero m)
  | n + 1, h, s => by
    rw [forUpTo_succ]
    by_cases hmn : m = n
    · subst hmn
      cases forUpTo m body s with
      | none => rfl
      | some t => exact hm t
    · rw [forUpTo_none body m hm n (by omega) s]
      rfl

theorem extract_none (x : CharacterMatrix) (sampleCols : List Dbl) (i : Nat)
    (hv : ¬ ValidCols x.ncol sampleCols) (e0 : List Dbl) :
    extractExpressions x sampleCols i sampleCols.length e0 = none := by
  unfold ValidCols at hv
  push_neg at hv
  obtain ⟨d, hd, hbad⟩ := hv
  obtain ⟨j, hj, rfl⟩ := List.getElem_of_mem hd
  unfold extractExpressions
  apply forUpTo_none _ j _ _ hj
  intro e
  simp only [List.get?_eq_getElem?, List.getElem?_eq_getElem hj, Option.bind_eq_bind,
    Option.some_bind]
  unfold ValidCol at hbad
  cases hidx : Dbl.toIndex sampleCols[j] with
  | none => rfl
  | some c =>
    rw [hidx] at hbad
    simp only [Option.some_bind, CharacterMatrix.get?]
    rw [if_neg (fun h => hbad h.2)]
    rfl

theorem rowBody_none (L : Lib) (x : CharacterMatrix) (sampleCols : List Dbl) (i : Nat)
    (hv : ¬ ValidCols x.ncol sampleCols) (out : CharacterMatrix) :
    rowBody L x sampleCols sampleCols.length i out = none := by
  unfold rowBody
  rw [extract_none x sampleCols i hv]
  rfl

theorem single_value_variance (v : Dbl) : varianceOf [v] (meanOf [v]) = Dbl.nan := by
  cases v <;>
    norm_num [varianceOf, meanOf, Dbl.ofInt, dbl_add_def, dbl_sub_def, dbl_mul_def, dbl_div_def,
      Dbl.add, Dbl.neg, Dbl.mul, Dbl.div, Dbl.infOfSign]

/-! ## The conversion of texts -/

theorem takeWhile_free {p : Char → Bool} {l : List Char} (h : ∀ c ∈ l, ¬ p c) :
    l.takeWhile p = [] := by
  cases l with
  | nil => rfl
  | cons c t => exact List.takeWhile_cons_of_neg (h c (List.mem_cons_self c t))

theorem dropWhile_free {p : Char → Bool} {l : List Char} (h : ∀ c ∈ l, ¬ p c) :
    l.dropWhile p = l := by
  cases l with
  | nil => rfl
  | cons c t => exact List.dropWhile_cons_of_neg (h c (List.mem_cons_self c t))

theorem takeWhile_digits {p : Char → Bool} {ds r : List Char} (hd : ∀ c ∈ ds, p c)
    (hr : ∀ c ∈ r, ¬ p c) : (ds ++ r).takeWhile p = ds := by
  rw [List.takeWhile_append_of_pos hd, takeWhile_free hr, List.append_nil]

theorem dropWhile_digits {p : Char → Bool} {ds r : List Char} (hd : ∀ c ∈ ds, p c)
    (hr : ∀ c ∈ r, ¬ p c) : (ds ++ r).dropWhile p = r := by
  rw [List.dropWhile_append_of_pos hd, dropWhile_free hr]

theorem parseExp_free (lo up : Char) {r : List Char} (hr : ∀ c ∈ r, ¬ isDigit c) :
    parseExp lo up r = 0 := by
  cases r with
  | nil => rfl
  | cons c t =>
    have ht : ∀ d ∈ t, ¬ isDigit d := fun d hd => hr d (List.mem_cons_of_mem c hd)
    simp only [parseExp]
    split_ifs with h
    · cases t with
      | nil => rfl
      | cons s u =>
        have hu : ∀ d ∈ u, ¬ isDigit d := fun d hd => ht d (List.mem_cons_of_mem s hd)
        simp only
        split_ifs <;> simp [takeWhile_free hu, takeWhile_free ht, digitsVal]
    · rfl

theorem parseMagnitude_noConversion {cs : List Char} (h1 : startsNumber cs = false)
    (h2 : startsInf cs = false) (h3 : startsNan cs = false) :
    parseMagnitude cs = Dbl.fin 0 := by
  have hhex : parseHex cs = none := by
    match cs, h1 with
    | [], _ => rfl
    | [_], _ => rfl
    | z :: c :: t, h =>
      have hz : isDigit z = false := by
        simp only [startsNumber, Bool.or_eq_false_iff] at h
        exact h.1
      have : z ≠ '0' := by
        rintro rfl
        exact absurd hz (by decide)
      simp [parseHex, this]
  have hnum : parseNumber isDigit 10 'e' 'E' 10 cs = none := by
    match cs, h1 with
    | [], _ => simp [parseNumber, fracDigits]
    | c :: t, h =>
      simp only [startsNumber, Bool.or_eq_false_iff, Bool.and_eq_false_imp,
        decide_eq_true_eq] at h
      have hc : ¬ isDigit c = true := by simp [h.1]
      have hf : fracDigits isDigit (c :: t) = [] := by
        simp only [fracDigits]
        split_ifs with hp
        · cases t with
          | nil => rfl
          | cons d u =>
            have hd := h.2 hp
            exact List.takeWhile_cons_of_neg (by simpa using hd)
        · rfl
      simp [parseNumber, List.takeWhile_cons_of_neg hc, List.dropWhile_cons_of_neg hc, hf]
  simp [parseMagnitude, h2, h3, hhex, hnum]

/-- A text with no numeric beginning converts to zero. -/
theorem atof_noConversion {a : String} (h : NoConversion a) : atof a = Dbl.fin 0 := by
  unfold atof parseSigned
  rw [parseMagnitude_noConversion h.1 h.2.1 h.2.2]
  split_ifs <;> simp [Dbl.neg]

theorem digitsVal_from (base : Nat) (ys : List Char) (acc : Nat) :
    ys.foldl (fun a c => base * a + digitVal c) acc
      = acc * base ^ ys.length + digitsVal base ys := by
  induction ys generalizing acc with
  | nil => simp [digitsVal]
  | cons y t ih =>
    simp only [List.foldl_cons, List.length_cons, digitsVal]
    rw [ih (base * acc + digitVal y), ih (base * 0 + digitVal y)]
    unfold digitsVal
    ring

theorem digitsVal_append (base : Nat) (xs ys : List Char) :
    digitsVal base (xs ++ ys) = digitsVal base xs * base ^ ys.length + digitsVal base ys := by
  unfold digitsVal
  rw [List.foldl_append]
  exact digitsVal_from base ys _

theorem digit_facts {c : Char} (h : isDigit c = true) :
    isSpace c = false ∧ c ≠ '-' ∧ c ≠ '+' ∧ c ≠ '.' ∧ c ≠ 'x' ∧ c ≠ 'X' ∧ c ≠ 'i' ∧ c ≠ 'I'
      ∧ c ≠ 'n' ∧ c ≠ 'N' ∧ c.toNat ≠ 0 := by
  simp only [isDigit, decide_eq_true_eq] at h
  refine ⟨?_, ?_, ?_, ?_, ?_, ?_, ?_, ?_, ?_, ?_, ?_⟩
  · simp only [isSpace, decide_eq_false_iff_not]
    omega
  all_goals first
    | omega
    | (rintro rfl; revert h; decide)

theorem startsInf_cons {c : Char} (t : List Char) (h1 : c ≠ 'i') (h2 : c ≠ 'I') :
    startsInf (c :: t) = false := by
  match t with
  | [] => rfl
  | [_] => rfl
  | _ :: _ :: _ => simp [startsInf, h1, h2]

theorem startsNan_cons {c : Char} (t : List Char) (h1 : c ≠ 'n') (h2 : c ≠ 'N') :
    startsNan (c :: t) = false := by
  match t with
  | [] => rfl
  | [_] => rfl
  | _ :: _ :: _ => simp [startsNan, h1, h2]

theorem frac_split (frac : Option (List Char)) (su : List Char)
    (hfd : ∀ c ∈ frac.getD [], isDigit c) (hs : ∀ c ∈ su, ¬ isDigit c) :
    (pointPart frac ++ su).takeWhile isDigit = []
      ∧ fracDigits isDigit (pointPart frac ++ su) = frac.getD []
      ∧ ∀ c ∈ afterFrac isDigit (pointPart frac ++ su), ¬ isDigit c := by
  cases frac with
  | some f =>
    have hf : ∀ c ∈ f, isDigit c := by simpa using hfd
    refine ⟨List.takeWhile_cons_of_neg (by decide), ?_, ?_⟩
    · simp only [pointPart, List.cons_append, fracDigits, if_true, Option.getD_some]
      exact takeWhile_digits hf hs
    · simp only [pointPart, List.cons_append, afterFrac, if_true]
      rw [dropWhile_digits hf hs]
      exact hs
  | none =>
    refine ⟨takeWhile_free hs, ?_, ?_⟩
    · cases su with
      | nil => rfl
      | cons c t =>
        simp only [pointPart, List.nil_append, fracDigits, Option.getD_none]
        split_ifs
        · exact takeWhile_free fun d hd => hs d (List.mem_cons_of_mem c hd)
        · rfl
    · cases su with
      | nil => simp [pointPart, afterFrac]
      | cons c t =>
        simp only [pointPart, List.nil_append, afterFrac]
        split_ifs
        · rw [dropWhile_free fun d hd => hs d (List.mem_cons_of_mem c hd)]
          exact fun d hd => hs d (List.mem_cons_of_mem c hd)
        · exact hs

theorem parseNumber_decimal (whole : List Char) (frac : Option (List Char)) (su : List Char)
    (hw : whole ≠ []) (hwd : ∀ c ∈ whole, isDigit c) (hfd : ∀ c ∈ frac.getD [], isDigit c)
    (hs : ∀ c ∈ su, ¬ isDigit c) :
    parseNumber isDigit 10 'e' 'E' 10 (whole ++ (pointPart frac ++ su))
      = some ((digitsVal 10 whole : ℚ)
          + (digitsVal 10 (frac.getD []) : ℚ) / (10 : ℚ) ^ (frac.getD []).length) := by
  obtain ⟨h1, h2, h3⟩ := frac_split frac su hfd hs
  have htw : (whole ++ (pointPart frac ++ su)).takeWhile isDigit = whole := by
    rw [List.takeWhile_append_of_pos hwd, h1, List.append_nil]
  have hdw : (whole ++ (pointPart frac ++ su)).dropWhile isDigit = pointPart frac ++ su := by
    rw [List.dropWhile_append_of_pos hwd]
    have := List.takeWhile_append_dropWhile isDigit (pointPart frac ++ su)
    rw [h1, List.nil_append] at this
    exact this
  unfold parseNumber
  simp only [htw, hdw, h2, parseExp_free 'e' 'E' h3, hw, false_and, if_false, zpow_zero, mul_one,
    digitsVal_append]
  congr 1
  have h10 : ((10 : ℚ) ^ (frac.getD []).length) ≠ 0 := by positivity
  push_cast
  field_simp

theorem parseHex_decimal (whole : List Char) (frac : Option (List Char)) (su : List Char)
    (hw : whole ≠ []) (hwd : ∀ c ∈ whole, isDigit c)
    (hx : ¬ (whole = ['0'] ∧ frac = none ∧ (su.head? = some 'x' ∨ su.head? = some 'X'))) :
    parseHex (whole ++ (pointPart frac ++ su)) = none := by
  match whole, hw, hwd, hx with
  | [], hw, _, _ => exact absurd rfl hw
  | [w], _, hwd, hx =>
    match frac, hx with
    | some f, _ => simp [pointPart, parseHex]
    | none, hx =>
      match su, hx with
      | [], _ => rfl
      | c :: t, hx =>
        simp only [pointPart, List.nil_append, List.singleton_append, parseHex]
        rw [if_neg]
        rintro ⟨rfl, hc⟩
        exact hx ⟨rfl, rfl, by simpa using hc⟩
  | w :: d :: ws, _, hwd, _ =>
    have hd := digit_facts (hwd d (by simp))
    simp [parseHex, hd.2.2.2.2.1, hd.2.2.2.2.2.1]

theorem parseMagnitude_decimal (whole : List Char) (frac : Option (List Char)) (su : List Char)
    (hw : whole ≠ []) (hwd : ∀ c ∈ whole, isDigit c) (hfd : ∀ c ∈ frac.getD [], isDigit c)
    (hs : ∀ c ∈ su, ¬ isDigit c)
    (hx : ¬ (whole = ['0'] ∧ frac = none ∧ (su.head? = some 'x' ∨ su.head? = some 'X'))) :
    parseMagnitude (whole ++ (pointPart frac ++ su))
      = Dbl.fin ((digitsVal 10 whole : ℚ)
          + (digitsVal 10 (frac.getD []) : ℚ) / (10 : ℚ) ^ (frac.getD []).length) := by
  have hhex := parseHex_decimal whole frac su hw hwd hx
  have hnum := parseNumber_decimal whole frac su hw hwd hfd hs
  obtain ⟨w, ws, rfl⟩ := List.exists_cons_of_ne_nil hw
  have hd := digit_facts (hwd w (by simp))
  have hinf : startsInf (w :: ws ++ (pointPart frac ++ su)) = false :=
    startsInf_cons _ hd.2.2.2.2.2.2.1 hd.2.2.2.2.2.2.2.1
  have hnan : startsNan (w :: ws ++ (pointPart frac ++ su)) = false :=
    startsNan_cons _ hd.2.2.2.2.2.2.2.2.1 hd.2.2.2.2.2.2.2.2.2.1
  unfold parseMagnitude
  rw [hinf, hnan, hhex, hnum]
  rfl

theorem signed_decimal (sign : Option Bool) (whole : List Char) (r : List Char)
    (hw : whole ≠ []) (hwd : ∀ c ∈ whole, isDigit c) :
    hasMinus (signPart sign ++ (whole ++ r)) = decide (sign = some true)
      ∧ magnitudeText (signPart sign ++ (whole ++ r)) = whole ++ r := by
  obtain ⟨w, ws, rfl⟩ := List.exists_cons_of_ne_nil hw
  have hd := digit_facts (hwd w (by simp))
  match sign with
  | none =>
    have h1 : isSpace w = false := hd.1
    simp [signPart, hasMinus, magnitudeText, List.dropWhile_cons, h1, hd.2.1, hd.2.2.1]
  | some true =>
    have h1 : isSpace '-' = false := by decide
    simp [signPart, hasMinus, magnitudeText, List.dropWhile_cons, h1]
  | some false =>
    have h1 : isSpace '+' = false := by decide
    simp [signPart, hasMinus, magnitudeText, List.dropWhile_cons, h1]

theorem cText_append (pre suffix : List Char) (hp : ∀ c ∈ pre, c.toNat ≠ 0) :
    cText (String.mk (pre ++ suffix))
      = pre ++ suffix.takeWhile fun c => decide (c.toNat ≠ 0) := by
  unfold cText
  rw [show (String.mk (pre ++ suffix)).toList = pre ++ suffix from rfl]
  exact List.takeWhile_append_of_pos (by simpa using hp)

/-- The conversion of a decimal number followed by characters that are not
digits. -/
theorem atof_decimal (sign : Option Bool) (whole : List Char) (frac : Option (List Char))
    (suffix : List Char) (hw : whole ≠ []) (hwd : ∀ c ∈ whole, isDigit c)
    (hfd : ∀ c ∈ frac.getD [], isDigit c) (hs : ∀ c ∈ suffix, ¬ isDigit c)
    (hx : ¬ (whole = ['0'] ∧ frac = none
              ∧ (suffix.head? = some 'x' ∨ suffix.head? = some 'X'))) :
    atof (String.mk (decimalText sign whole frac ++ suffix))
      = Dbl.fin (decimalValue sign whole frac) := by
  have hpre : ∀ c ∈ decimalText sign whole frac, c.toNat ≠ 0 := by
    intro c hc
    simp only [decimalText, List.mem_append] at hc
    rcases hc with hc | hc | hc
    · match sign, hc with
      | some true, hc => simp [signPart] at hc; subst hc; decide
      | some false, hc => simp [signPart] at hc; subst hc; decide
    · exact (digit_facts (hwd c hc)).2.2.2.2.2.2.2.2.2.2
    · match frac, hfd, hc with
      | some f, hfd, hc =>
        simp only [pointPart, List.mem_cons] at hc
        rcases hc with rfl | hc
        · decide
        · exact (digit_facts (hfd c (by simpa using hc))).2.2.2.2.2.2.2.2.2.2
  have hsu : ∀ c ∈ suffix.takeWhile (fun c => decide (c.toNat ≠ 0)), ¬ isDigit c :=
    fun c hc => hs c ((List.takeWhile_sublist _).subset hc)
  have hxu : ¬ (whole = ['0'] ∧ frac = none
      ∧ ((suffix.takeWhile fun c => decide (c.toNat ≠ 0)).head? = some 'x'
        ∨ (suffix.takeWhile fun c => decide (c.toNat ≠ 0)).head? = some 'X')) := by
    rintro ⟨h1, h2, h3⟩
    apply hx
    refine ⟨h1, h2, ?_⟩
    cases suffix with
    | nil => simp at h3
    | cons c t =>
      rw [List.takeWhile_cons] at h3
      split_ifs at h3
      · simpa using h3
      · simp at h3
  unfold atof parseSigned
  rw [cText_append _ _ hpre]
  unfold decimalText
  rw [List.append_assoc, List.append_assoc]
  obtain ⟨hm, hmt⟩ := signed_decimal sign whole
    (pointPart frac ++ suffix.takeWhile fun c => decide (c.toNat ≠ 0)) hw hwd
  rw [hm, hmt, parseMagnitude_decimal whole frac _ hw hwd hfd hsu hxu]
  unfold decimalValue
  by_cases hsg : sign = some true
  · simp [hsg, Dbl.neg]
  · simp [hsg]

theorem atof_0 : atof "0" = Dbl.fin 0 := by
  simp [atof, cText, parseSigned, hasMinus, magnitudeText, parseMagnitude, startsInf, startsNan,
    parseHex, parseNumber, isSpace, isDigit, fracDigits, afterFrac, digitsVal, parseExp, digitVal]

theorem atof_abc : atof "abc" = Dbl.fin 0 := atof_noConversion (by decide)

theorem atof_12abc : atof "12abc" = Dbl.fin 12 := by
  simp [atof, cText, parseSigned, hasMinus, magnitudeText, parseMagnitude, startsInf, startsNan,
    parseHex, parseNumber, isSpace, isDigit, fracDigits, afterFrac, digitsVal, parseExp, digitVal]

theorem atof_nan : atof "nan" = Dbl.nan := by decide

theorem atof_inf : atof "inf" = Dbl.pinf := by decide

theorem atof_0xA : atof "0xA" = Dbl.fin 10 := by
  simp [atof, cText, parseSigned, hasMinus, magnitudeText, parseMagnitude, startsInf, startsNan,
    parseHex, parseNumber, isSpace, isDigit, isHexDigit, fracDigits, afterFrac, digitsVal,
    parseExp, digitVal]

theorem stdev_nan_zero (L : Lib) (hs : L.sqrt Dbl.nan = Dbl.nan) :
    stdevOf L [Dbl.nan, Dbl.fin 0] = Dbl.nan := by
  have h : varianceOf [Dbl.nan, Dbl.fin 0] (meanOf [Dbl.nan, Dbl.fin 0]) = Dbl.nan := by
    norm_num [varianceOf, meanOf, Dbl.ofInt, dbl_add_def, dbl_sub_def, dbl_mul_def, dbl_div_def,
      Dbl.add, Dbl.neg, Dbl.mul, Dbl.div, Dbl.infOfSign]
  rw [stdevOf, h, hs]

theorem variance_zero_zero :
    varianceOf [Dbl.fin 0, Dbl.fin 0] (meanOf [Dbl.fin 0, Dbl.fin 0]) = Dbl.fin 0 := by
  norm_num [varianceOf, meanOf, Dbl.ofInt, dbl_add_def, dbl_sub_def, dbl_mul_def, dbl_div_def,
    Dbl.add, Dbl.neg, Dbl.mul, Dbl.div, Dbl.infOfSign]

theorem mean_zero_four : meanOf [Dbl.fin 0, Dbl.fin 4] = Dbl.fin 2 := by
  norm_num [meanOf, Dbl.ofInt, dbl_add_def, dbl_div_def, Dbl.add, Dbl.div]

theorem variance_zero_four : varianceOf [Dbl.fin 0, Dbl.fin 4] (Dbl.fin 2) = Dbl.fin 8 := by
  norm_num [varianceOf, Dbl.ofInt, dbl_add_def, dbl_sub_def, dbl_mul_def, dbl_div_def,
    Dbl.add, Dbl.neg, Dbl.mul, Dbl.div]

/-- Replacing a cell by a text with the same value leaves the parsed sample
values of every row unchanged. -/
theorem sampleValues_set (x xr : CharacterMatrix) (sampleCols : List Dbl) (i j : Nat) (v : String)
    (hset : x.set? i j v = some xr) (hval : atof v = atof (x.cell i j)) (r : Nat) :
    sampleValues xr sampleCols r = sampleValues x sampleCols r := by
  unfold CharacterMatrix.set? at hset
  split_ifs at hset
  cases hset
  unfold sampleValues
  apply List.map_congr_left
  intro d _
  by_cases h : r = i ∧ colIndex d = j
  · obtain ⟨rfl, rfl⟩ := h
    simp [hval]
  · simp only [h, if_false]

/-- A whole number below the column count designates a column. -/
theorem validCol_of_lt {c n : Nat} (h : n < c) : ValidCol c (Dbl.fin n) := by
  have h1 : (-1 : ℚ) < (n : ℚ) := by
    have : (0 : ℚ) ≤ (n : ℚ) := Nat.cast_nonneg n
    linarith
  simp [ValidCol, Dbl.toIndex, h1, Rat.floor_def', h]

/-! ## Exact arithmetic -/

theorem fold_fin_add (qs : List ℚ) (a : ℚ) :
    (qs.map Dbl.fin).foldl (fun sum v => sum + v) (Dbl.fin a) = Dbl.fin (a + qs.sum) := by
  induction qs generalizing a with
  | nil => simp
  | cons q t ih =>
    simp only [List.map_cons, List.foldl_cons, List.sum_cons]
    rw [show Dbl.fin a + Dbl.fin q = Dbl.fin (a + q) from rfl, ih, add_assoc]

theorem fold_fin_sq (qs : List ℚ) (m a : ℚ) :
    (qs.map Dbl.fin).foldl (fun temp v => temp + (v - Dbl.fin m) * (v - Dbl.fin m)) (Dbl.fin a)
      = Dbl.fin (a + sumSq qs m) := by
  induction qs generalizing a with
  | nil => simp [sumSq]
  | cons q t ih =>
    simp only [List.map_cons, List.foldl_cons, sumSq, List.sum_cons]
    have h : Dbl.fin a + (Dbl.fin q - Dbl.fin m) * (Dbl.fin q - Dbl.fin m)
        = Dbl.fin (a + (q - m) * (q - m)) := by
      simp [dbl_add_def, dbl_sub_def, dbl_mul_def, Dbl.add, Dbl.neg, Dbl.mul, sub_eq_add_neg]
    rw [h, ih, add_assoc]
    rfl

theorem meanOf_fin (qs : List ℚ) (h : qs ≠ []) :
    meanOf (qs.map Dbl.fin) = Dbl.fin (exactMean qs) := by
  have hl : (qs.length : ℚ) ≠ 0 := by
    have : qs.length ≠ 0 := fun h0 => h (List.length_eq_zero.mp h0)
    exact_mod_cast this
  unfold meanOf exactMean
  rw [show Dbl.ofInt 0 = Dbl.fin 0 by simp [Dbl.ofInt], fold_fin_add]
  simp [dbl_div_def, Dbl.div, Dbl.ofInt, hl]

theorem varianceOf_fin (qs : List ℚ) (m : ℚ) (h : 2 ≤ qs.length) :
    varianceOf (qs.map Dbl.fin) (Dbl.fin m)
      = Dbl.fin (sumSq qs m / ((qs.length : ℚ) - 1)) := by
  have hl : ((qs.length : ℚ) - 1) ≠ 0 := by
    have : (2 : ℚ) ≤ (qs.length : ℚ) := by exact_mod_cast h
    linarith
  unfold varianceOf
  rw [show Dbl.ofInt 0 = Dbl.fin 0 by simp [Dbl.ofInt], fold_fin_sq]
  simp [dbl_div_def, Dbl.div, Dbl.ofInt, hl]

theorem sumSq_nonneg (qs : List ℚ) (m : ℚ) : 0 ≤ sumSq qs m := by
  unfold sumSq
  apply List.sum_nonneg
  intro x hx
  obtain ⟨q, _, rfl⟩ := List.mem_map.mp hx
  exact mul_self_nonneg _

theorem sumSq_eq_zero_iff (qs : List ℚ) (m : ℚ) : sumSq qs m = 0 ↔ ∀ q ∈ qs, q = m := by
  induction qs with
  | nil => simp [sumSq]
  | cons q t ih =>
    have hq : 0 ≤ (q - m) * (q - m) := mul_self_nonneg _
    have ht : 0 ≤ sumSq t m := sumSq_nonneg t m
    have hs : sumSq (q :: t) m = (q - m) * (q - m) + sumSq t m := by simp [sumSq]
    rw [hs, List.forall_mem_cons, ← ih]
    constructor
    · intro h
      have h1 : (q - m) * (q - m) = 0 := by linarith
      have h2 : sumSq t m = 0 := by linarith
      exact ⟨sub_eq_zero.mp (mul_self_eq_zero.mp h1), h2⟩
    · rintro ⟨rfl, h2⟩
      simp [h2]

theorem all_eq_mean_iff (qs : List ℚ) (h : qs ≠ []) :
    (∀ q ∈ qs, q = exactMean qs) ↔ ∀ a ∈ qs, ∀ b ∈ qs, a = b := by
  constructor
  · intro hm a ha b hb
    rw [hm a ha, hm b hb]
  · intro hall q hq
    have hconst : ∀ b ∈ qs, b = q := fun b hb => hall b hb q hq
    have hsum : qs.sum = (qs.length : ℚ) * q := by
      rw [List.eq_replicate_of_mem hconst]
      simp
    have hl : (qs.length : ℚ) ≠ 0 := by
      have : qs.length ≠ 0 := fun h0 => h (List.length_eq_zero.mp h0)
      exact_mod_cast this
    unfold exactMean
    rw [hsum]
    field_simp

theorem isqrtBelow_pos (n : Nat) (hn : 0 < n) : ∀ k, 0 < k → 0 < isqrtBelow n k
  | 0, h => absurd h (Nat.lt_irrefl 0)
  | 1, _ => by
    have h1 : (0 + 1) * (0 + 1) ≤ n := by omega
    simp [isqrtBelow, h1]
  | k + 2, _ => by
    unfold isqrtBelow
    split_ifs
    · omega
    · exact isqrtBelow_pos n hn (k + 1) (by omega)

theorem isqrt_pos {n : Nat} (hn : 0 < n) : 0 < isqrt n :=
  isqrtBelow_pos n hn n hn

/-- The reference square root of a non-negative number is a non-negative
number, and it is zero only for zero. -/
theorem sqrtRef_fin (v : ℚ) (hv : 0 ≤ v) :
    ∃ r : ℚ, 0 ≤ r ∧ sqrtRef (Dbl.fin v) = Dbl.fin r ∧ (r = 0 ↔ v = 0) := by
  refine ⟨(isqrt v.num.toNat : ℚ) / (isqrt v.den : ℚ), by positivity, ?_, ?_⟩
  · simp [sqrtRef, not_lt.mpr hv]
  · have hden : (isqrt v.den : ℚ) ≠ 0 := by
      have := isqrt_pos v.den_pos
      exact_mod_cast this.ne'
    rw [div_eq_zero_iff]
    constructor
    · rintro (h | h)
      · have h0 : isqrt v.num.toNat = 0 := by exact_mod_cast h
        have hnum : v.num.toNat = 0 := by
          by_contra hne
          exact absurd h0 (isqrt_pos (Nat.pos_of_ne_zero hne)).ne'
        have hn0 : 0 ≤ v.num := Rat.num_nonneg.mpr hv
        have : v.num = 0 := by omega
        exact Rat.num_eq_zero.mp this
      · exact absurd h hden
    · rintro rfl
      left
      simp [isqrt, isqrtBelow]

theorem sqrtRef_zero_iff (v : ℚ) (hv : 0 ≤ v) : sqrtRef (Dbl.fin v) = Dbl.fin 0 ↔ v = 0 := by
  obtain ⟨r, _, h1, h2⟩ := sqrtRef_fin v hv
  rw [h1, ← h2]
  constructor
  · intro h
    exact Dbl.fin.inj h
  · rintro rfl
    rfl

theorem sqrtRef_nonneg (v : ℚ) (hv : 0 ≤ v) :
    ∃ r : ℚ, 0 ≤ r ∧ sqrtRef (Dbl.fin v) = Dbl.fin r := by
  obtain ⟨r, h0, h1, _⟩ := sqrtRef_fin v hv
  exact ⟨r, h0, h1⟩

theorem dbl_add_comm (a b : Dbl) : a + b = b + a := by
  cases a <;> cases b <;> simp [dbl_add_def, Dbl.add, add_comm]

theorem dbl_add_right_comm (z a b : Dbl) : z + a + b = z + b + a := by
  rw [dbl_add_assoc, dbl_add_comm a b, ← dbl_add_assoc]

theorem meanOf_perm {v w : List Dbl} (h : v.Perm w) : meanOf v = meanOf w := by
  unfold meanOf
  rw [List.Perm.foldl_eq' h (fun x _ y _ z => dbl_add_right_comm z x y), h.length_eq]

theorem varianceOf_perm {v w : List Dbl} (h : v.Perm w) (m : Dbl) :
    varianceOf v m = varianceOf w m := by
  unfold varianceOf
  have hf := List.Perm.foldl_eq' (f := fun temp v => temp + (v - m) * (v - m)) h
    (fun x _ y _ z => dbl_add_right_comm z _ _) (Dbl.ofInt 0)
  rw [hf, h.length_eq]

theorem stdevOf_perm (L : Lib) {v w : List Dbl} (h : v.Perm w) : stdevOf L v = stdevOf L w := by
  unfold stdevOf
  rw [meanOf_perm h, varianceOf_perm h]

theorem validCols_perm {c : Nat} {s t : List Dbl} (h : s.Perm t) (hv : ValidCols c s) :
    ValidCols c t :=
  fun d hd => hv d (h.symm.subset hd)

theorem stdev_fin (L : Lib) (qs : List ℚ) (h : 2 ≤ qs.length) :
    Calculate_StandardDeviation L (qs.map Dbl.fin) qs.length
      = some (L.sqrt (Dbl.fin (exactVariance qs))) := by
  have hne : qs ≠ [] := by
    rintro rfl
    simp at h
  have h1 := Calculate_StandardDeviation_eq L (qs.map Dbl.fin)
  rw [List.length_map] at h1
  rw [h1, stdevOf, meanOf_fin qs hne, varianceOf_fin qs _ h]
  rfl

theorem exactVariance_nonneg (qs : List ℚ) (h : 2 ≤ qs.length) : 0 ≤ exactVariance qs := by
  have hl : (0 : ℚ) ≤ (qs.length : ℚ) - 1 := by
    have : (2 : ℚ) ≤ (qs.length : ℚ) := by exact_mod_cast h
    linarith
  exact div_nonneg (sumSq_nonneg qs _) hl

theorem exactVariance_eq_zero_iff (qs : List ℚ) (h : 2 ≤ qs.length) :
    exactVariance qs = 0 ↔ ∀ a ∈ qs, ∀ b ∈ qs, a = b := by
  have hne : qs ≠ [] := by
    rintro rfl
    simp at h
  have hl : (qs.length : ℚ) - 1 ≠ 0 := by
    have : (2 : ℚ) ≤ (qs.length : ℚ) := by exact_mod_cast h
    linarith
  unfold exactVariance
  rw [div_eq_zero_iff, ← all_eq_mean_iff qs hne, ← sumSq_eq_zero_iff]
  simp [hl]

theorem sampleValues_g8 :
    sampleValues (CharacterMatrix.ofRows 3 [["g8", "2", "4"]]) [Dbl.fin 1, Dbl.fin 2] 0
      = [(2 : ℚ), 4].map Dbl.fin := by
  have h2 : Int.toNat 2 = 2 := rfl
  norm_num [sampleValues, CharacterMatrix.ofRows, colIndex, Dbl.toIndex, Rat.floor_def',
    atof_2, atof_4, h2]

theorem map_add_fin (qs : List ℚ) (c : ℚ) :
    (qs.map Dbl.fin).map (fun v => v + Dbl.fin c) = (qs.map fun q => q + c).map Dbl.fin := by
  simp only [List.map_map]
  apply List.map_congr_left
  intro q _
  rfl

theorem sumSq_translate (qs : List ℚ) (m c : ℚ) :
    sumSq (qs.map fun q => q + c) (m + c) = sumSq qs m := by
  unfold sumSq
  rw [List.map_map]
  congr 1
  apply List.map_congr_left
  intro q _
  simp only [Function.comp]
  ring

theorem sum_translate (qs : List ℚ) (c : ℚ) :
    (qs.map fun q => q + c).sum = qs.sum + (qs.length : ℚ) * c := by
  induction qs with
  | nil => simp
  | cons q t ih =>
    simp only [List.map_cons, List.sum_cons, List.length_cons, Nat.cast_add, Nat.cast_one]
    rw [ih]
    ring

theorem exactMean_translate (qs : List ℚ) (c : ℚ) (h : qs ≠ []) :
    exactMean (qs.map fun q => q + c) = exactMean qs + c := by
  have hl : (qs.length : ℚ) ≠ 0 := by
    have : qs.length ≠ 0 := fun h0 => h (List.length_eq_zero.mp h0)
    exact_mod_cast this
  unfold exactMean
  rw [sum_translate, List.length_map]
  field_simp
  ring

theorem exactVariance_translate (qs : List ℚ) (c : ℚ) (h : qs ≠ []) :
    exactVariance (qs.map fun q => q + c) = exactVariance qs := by
  unfold exactVariance
  rw [exactMean_translate qs c h, sumSq_translate, List.length_map]

theorem stdev_nan_nan (L : Lib) (hs : L.sqrt Dbl.nan = Dbl.nan) :
    stdevOf L [Dbl.nan, Dbl.nan] = Dbl.nan := by
  have h : varianceOf [Dbl.nan, Dbl.nan] (meanOf [Dbl.nan, Dbl.nan]) = Dbl.nan := by
    norm_num [varianceOf, meanOf, Dbl.ofInt, dbl_add_def, dbl_sub_def, dbl_mul_def, dbl_div_def,
      Dbl.add, Dbl.neg, Dbl.mul, Dbl.div, Dbl.infOfSign]
  rw [stdevOf, h, hs]

theorem setAt_isSome {α : Type} (e : List α) (j : Nat) (v : α) (h : j < e.length) :
    (setAt? e j v).isSome := by
  simp [setAt?, h]

theorem copyRow_isSome (x : CharacterMatrix) (i : Nat) (hi : i < x.nrow) (out : CharacterMatrix)
    (hr : out.nrow = x.nrow) (hc : out.ncol = x.ncol + 1) :
    ∃ out1, copyRow x i out = some out1 ∧ out1.nrow = x.nrow ∧ out1.ncol = x.ncol + 1 :=
  ⟨_, copy_steps x i hi out hr hc x.ncol le_rfl, hr, hc⟩

/-! ## The claims -/

/-- C1: on a grid with `r` rows and `c` columns (zero rows included) and sample
columns that all designate a column of the grid, `which_rows_with_no_sd_cpp`
returns a grid with exactly `r` rows and `c + 1` columns; as a list of rows, it
has `r` rows of `c + 1` cells each. -/
theorem C1_shape (L : Lib) (x : CharacterMatrix) (sampleCols : List Dbl)
    (hv : ValidCols x.ncol sampleCols) :
    ∃ out, which_rows_with_no_sd_cpp L x sampleCols = some out
      ∧ out.nrow = x.nrow ∧ out.ncol = x.ncol + 1
      ∧ out.toRows.length = x.nrow ∧ ∀ r ∈ out.toRows, r.length = x.ncol + 1 := by
  refine ⟨augmented L x sampleCols, which_rows_eq L x sampleCols hv, rfl, rfl, ?_, ?_⟩
  · simp [CharacterMatrix.toRows, augmented]
  · intro r hr
    simp only [CharacterMatrix.toRows, List.mem_map] at hr
    obtain ⟨i, _, rfl⟩ := hr
    simp [CharacterMatrix.row, augmented]

theorem C1_shape_witness :
    ValidCols (CharacterMatrix.ofRows 3 []).ncol [Dbl.fin 0, Dbl.fin 2]
      ∧ ∃ out, which_rows_with_no_sd_cpp refLib (CharacterMatrix.ofRows 3 []) [Dbl.fin 0, Dbl.fin 2]
            = some out
          ∧ out.nrow = (CharacterMatrix.ofRows 3 []).nrow
          ∧ out.ncol = (CharacterMatrix.ofRows 3 []).ncol + 1
          ∧ out.toRows.length = (CharacterMatrix.ofRows 3 []).nrow
          ∧ ∀ r ∈ out.toRows, r.length = (CharacterMatrix.ofRows 3 []).ncol + 1 :=
  ⟨by decide, C1_shape refLib (CharacterMatrix.ofRows 3 []) [Dbl.fin 0, Dbl.fin 2] (by decide)⟩

/-- C2: on valid input, every cell `(i, j)` of the output with `j` below the
input column count holds the text of cell `(i, j)` of the input: the first
`ncol` cells of each output row are the input row, sample columns included. -/
theorem C2_preservation (L : Lib) (x : CharacterMatrix) (sampleCols : List Dbl)
    (hv : ValidCols x.ncol sampleCols) :
    ∃ out, which_rows_with_no_sd_cpp L x sampleCols = some out
      ∧ (∀ i j, i < x.nrow → j < x.ncol → out.get? i j = x.get? i j)
      ∧ ∀ i, i < x.nrow → (out.row i).take x.ncol = x.row i := by
  refine ⟨augmented L x sampleCols, which_rows_eq L x sampleCols hv, ?_, ?_⟩
  · intro i j hi hj
    rw [augmented_get_old L x sampleCols i j hi hj]
    simp [CharacterMatrix.get?, hi, hj]
  · intro i hi
    simp only [CharacterMatrix.row, augmented, hi, if_true]
    rw [List.range_succ, List.map_append, List.take_left' (by simp)]
    apply List.map_congr_left
    intro j hj
    simp [List.mem_range.mp hj]

theorem C2_preservation_witness :
    ValidCols (CharacterMatrix.ofRows 3 [["a", "1", "x"], ["b", "3", "4"]]).ncol
        [Dbl.fin 1, Dbl.fin 2]
      ∧ ∃ out, which_rows_with_no_sd_cpp refLib
              (CharacterMatrix.ofRows 3 [["a", "1", "x"], ["b", "3", "4"]]) [Dbl.fin 1, Dbl.fin 2]
            = some out
          ∧ (∀ i j, i < (CharacterMatrix.ofRows 3 [["a", "1", "x"], ["b", "3", "4"]]).nrow →
              j < (CharacterMatrix.ofRows 3 [["a", "1", "x"], ["b", "3", "4"]]).ncol →
              out.get? i j
                = (CharacterMatrix.ofRows 3 [["a", "1", "x"], ["b", "3", "4"]]).get? i j)
          ∧ ∀ i, i < (CharacterMatrix.ofRows 3 [["a", "1", "x"], ["b", "3", "4"]]).nrow →
              (out.row i).take (CharacterMatrix.ofRows 3 [["a", "1", "x"], ["b", "3", "4"]]).ncol
                = (CharacterMatrix.ofRows 3 [["a", "1", "x"], ["b", "3", "4"]]).row i :=
  ⟨by decide,
    C2_preservation refLib (CharacterMatrix.ofRows 3 [["a", "1", "x"], ["b", "3", "4"]])
      [Dbl.fin 1, Dbl.fin 2] (by decide)⟩

/-- C3: with at least two sample columns, all designating a column of the grid,
the cell appended to each row is the rendering of the square root of the sum of
the squared deviations of the parsed sample values from their mean, divided by
the number of values less one (the unbiased sample standard deviation), the
mean being the sum of the values divided by their number. -/
theorem C3_sample_stdev (L : Lib) (x : CharacterMatrix) (sampleCols : List Dbl)
    (hv : ValidCols x.ncol sampleCols) (hk : 2 ≤ sampleCols.length) :
    ∃ out, which_rows_with_no_sd_cpp L x sampleCols = some out
      ∧ ∀ i, i < x.nrow →
          out.get? i x.ncol = some (L.render (specStdev L (sampleValues x sampleCols i))) := by
  refine ⟨augmented L x sampleCols, which_rows_eq L x sampleCols hv, ?_⟩
  intro i hi
  rw [augmented_get_new L x sampleCols i hi, stdevOf_eq_specStdev]
  simpa [sampleValues] using hk

theorem C3_sample_stdev_witness :
    ValidCols (CharacterMatrix.ofRows 3 [["g7", "1", "3"]]).ncol [Dbl.fin 1, Dbl.fin 2]
      ∧ 2 ≤ [Dbl.fin 1, Dbl.fin 2].length
      ∧ ∃ out, which_rows_with_no_sd_cpp refLib (CharacterMatrix.ofRows 3 [["g7", "1", "3"]])
              [Dbl.fin 1, Dbl.fin 2] = some out
          ∧ ∀ i, i < (CharacterMatrix.ofRows 3 [["g7", "1", "3"]]).nrow →
              out.get? i (CharacterMatrix.ofRows 3 [["g7", "1", "3"]]).ncol
                = some (refLib.render (specStdev refLib
                    (sampleValues (CharacterMatrix.ofRows 3 [["g7", "1", "3"]])
                      [Dbl.fin 1, Dbl.fin 2] i))) :=
  ⟨by decide, by decide,
    C3_sample_stdev refLib (CharacterMatrix.ofRows 3 [["g7", "1", "3"]]) [Dbl.fin 1, Dbl.fin 2]
      (by decide) (by decide)⟩

/-- C4: on the grid with the single row `g1, 2, 4, 6` and sample columns `1, 2, 3`
the parsed values are `2, 4, 6`, the mean is `4`, the variance is `4`, the
standard deviation is exactly `2` (the square root of `4` being `2`), and the
result is the single row `g1, 2, 4, 6` followed by the rendering of `2`. -/
theorem C4_known_value (L : Lib) (hs : L.sqrt (Dbl.fin 4) = Dbl.fin 2) :
    sampleValues (CharacterMatrix.ofRows 4 [["g1", "2", "4", "6"]])
        [Dbl.fin 1, Dbl.fin 2, Dbl.fin 3] 0 = [Dbl.fin 2, Dbl.fin 4, Dbl.fin 6]
      ∧ CalculateMean [Dbl.fin 2, Dbl.fin 4, Dbl.fin 6] 3 = some (Dbl.fin 4)
      ∧ CalculateVariance [Dbl.fin 2, Dbl.fin 4, Dbl.fin 6] (Dbl.fin 4) 3 = some (Dbl.fin 4)
      ∧ Calculate_StandardDeviation L [Dbl.fin 2, Dbl.fin 4, Dbl.fin 6] 3 = some (Dbl.fin 2)
      ∧ (which_rows_with_no_sd_cpp L (CharacterMatrix.ofRows 4 [["g1", "2", "4", "6"]])
            [Dbl.fin 1, Dbl.fin 2, Dbl.fin 3]).map CharacterMatrix.toRows
          = some [["g1", "2", "4", "6", L.render (Dbl.fin 2)]] := by
  have hvals : sampleValues (CharacterMatrix.ofRows 4 [["g1", "2", "4", "6"]])
      [Dbl.fin 1, Dbl.fin 2, Dbl.fin 3] 0 = [Dbl.fin 2, Dbl.fin 4, Dbl.fin 6] := by
    have h2 : Int.toNat 2 = 2 := rfl
    have h3 : Int.toNat 3 = 3 := rfl
    norm_num [sampleValues, CharacterMatrix.ofRows, colIndex, Dbl.toIndex, Rat.floor_def',
      atof_2, atof_4, atof_6, h2, h3]
  have hmean : CalculateMean [Dbl.fin 2, Dbl.fin 4, Dbl.fin 6] 3 = some (Dbl.fin 4) := by
    simp [CalculateMean, forUpTo, dbl_add_def, dbl_div_def, Dbl.add, Dbl.div, Dbl.ofInt]
    norm_num
  have hvar : CalculateVariance [Dbl.fin 2, Dbl.fin 4, Dbl.fin 6] (Dbl.fin 4) 3
      = some (Dbl.fin 4) := by
    simp [CalculateVariance, forUpTo, dbl_add_def, dbl_sub_def, dbl_mul_def, dbl_div_def,
      Dbl.add, Dbl.neg, Dbl.mul, Dbl.div, Dbl.ofInt]
    norm_num
  have hsd : Calculate_StandardDeviation L [Dbl.fin 2, Dbl.fin 4, Dbl.fin 6] 3
      = some (Dbl.fin 2) := by
    simp [Calculate_StandardDeviation, hmean, hvar, hs]
  refine ⟨hvals, hmean, hvar, hsd, ?_⟩
  rw [which_rows_eq L _ _ (by decide), Option.map_some', augmented_toRows]
  have h3 := Calculate_StandardDeviation_eq L [Dbl.fin 2, Dbl.fin 4, Dbl.fin 6]
  rw [show ([Dbl.fin 2, Dbl.fin 4, Dbl.fin 6] : List Dbl).length = 3 from rfl, hsd] at h3
  have h4 : stdevOf L [Dbl.fin 2, Dbl.fin 4, Dbl.fin 6] = Dbl.fin 2 := (Option.some.inj h3).symm
  have hr : (CharacterMatrix.ofRows 4 [["g1", "2", "4", "6"]]).row 0 = ["g1", "2", "4", "6"] := by
    decide
  have hn : (CharacterMatrix.ofRows 4 [["g1", "2", "4", "6"]]).nrow = 1 := rfl
  have h1 : List.range 1 = [0] := rfl
  simp [hn, h1, hr, hvals, h4]

theorem C4_known_value_witness :
    refLib.sqrt (Dbl.fin 4) = Dbl.fin 2
      ∧ sampleValues (CharacterMatrix.ofRows 4 [["g1", "2", "4", "6"]])
        [Dbl.fin 1, Dbl.fin 2, Dbl.fin 3] 0 = [Dbl.fin 2, Dbl.fin 4, Dbl.fin 6]
      ∧ CalculateMean [Dbl.fin 2, Dbl.fin 4, Dbl.fin 6] 3 = some (Dbl.fin 4)
      ∧ CalculateVariance [Dbl.fin 2, Dbl.fin 4, Dbl.fin 6] (Dbl.fin 4) 3 = some (Dbl.fin 4)
      ∧ Calculate_StandardDeviation refLib [Dbl.fin 2, Dbl.fin 4, Dbl.fin 6] 3
          = some (Dbl.fin 2)
      ∧ (which_rows_with_no_sd_cpp refLib (CharacterMatrix.ofRows 4 [["g1", "2", "4", "6"]])
            [Dbl.fin 1, Dbl.fin 2, Dbl.fin 3]).map CharacterMatrix.toRows
          = some [["g1", "2", "4", "6", refLib.render (Dbl.fin 2)]] :=
  ⟨by simp [refLib, sqrtRef, isqrt, isqrtBelow],
    C4_known_value refLib (by simp [refLib, sqrtRef, isqrt, isqrtBelow])⟩

/-- C5 (as amended): with no sample column the mean is `0/0`, NaN, but the loop
of the variance runs over no value, so the variance is `0 / (0 - 1)`, zero, for
every mean; the standard deviation is the square root of zero, and the call
succeeds and appends the rendering of that square root to every row. -/
theorem C5_empty_sample (L : Lib) (x : CharacterMatrix) :
    CalculateMean [] 0 = some Dbl.nan
      ∧ (∀ mean, CalculateVariance [] mean 0 = some (Dbl.fin 0))
      ∧ Calculate_StandardDeviation L [] 0 = some (L.sqrt (Dbl.fin 0))
      ∧ ∃ out, which_rows_with_no_sd_cpp L x [] = some out
          ∧ ∀ i, i < x.nrow → out.get? i x.ncol = some (L.render (L.sqrt (Dbl.fin 0))) := by
  have hm : CalculateMean [] 0 = some Dbl.nan := by
    simp [CalculateMean, forUpTo, Dbl.ofInt, dbl_div_def, Dbl.div]
  have hvar : ∀ mean, CalculateVariance [] mean 0 = some (Dbl.fin 0) := by
    intro mean
    simp [CalculateVariance, forUpTo, Dbl.ofInt, dbl_div_def, Dbl.div]
  have hsd : Calculate_StandardDeviation L [] 0 = some (L.sqrt (Dbl.fin 0)) := by
    simp [Calculate_StandardDeviation, hm, hvar]
  refine ⟨hm, hvar, hsd, augmented L x [], which_rows_eq L x [] (by simp [ValidCols]), ?_⟩
  intro i hi
  rw [augmented_get_new L x [] i hi]
  have h := Calculate_StandardDeviation_eq L []
  rw [List.length_nil, hsd] at h
  rw [show sampleValues x [] i = [] from rfl, ← Option.some.inj h]

/-- C5, as stated, fails: with no sample column and the reference library the
standard deviation is `0`, not NaN, and the row `g1, 5` becomes `g1, 5, 0`, whose
last cell is not the rendering of NaN. -/
theorem C5_counterexample :
    Calculate_StandardDeviation refLib [] 0 = some (Dbl.fin 0)
      ∧ Calculate_StandardDeviation refLib [] 0 ≠ some Dbl.nan
      ∧ (which_rows_with_no_sd_cpp refLib (CharacterMatrix.ofRows 2 [["g1", "5"]]) []).map
          CharacterMatrix.toRows = some [["g1", "5", "0"]]
      ∧ "0" ≠ refLib.render Dbl.nan := by
  have hsd : Calculate_StandardDeviation refLib [] 0 = some (Dbl.fin 0) := by
    simp [Calculate_StandardDeviation, CalculateMean, CalculateVariance, forUpTo, Dbl.ofInt,
      dbl_div_def, Dbl.div, refLib, sqrtRef, isqrt, isqrtBelow]
  refine ⟨hsd, by rw [hsd]; decide, ?_, by decide⟩
  rw [which_rows_eq refLib _ _ (by decide), Option.map_some', augmented_toRows]
  have h := Calculate_StandardDeviation_eq refLib []
  rw [List.length_nil, hsd] at h
  have h4 : stdevOf refLib [] = Dbl.fin 0 := (Option.some.inj h).symm
  have hr : (CharacterMatrix.ofRows 2 [["g1", "5"]]).row 0 = ["g1", "5"] := by decide
  have hn : (CharacterMatrix.ofRows 2 [["g1", "5"]]).nrow = 1 := rfl
  have h1 : List.range 1 = [0] := rfl
  have h0 : refLib.render (Dbl.fin 0) = "0" := by decide
  simp [hn, h1, hr, sampleValues, h4, h0]

/-- C6: with exactly one sample column, designating a column of the grid, the
variance of every row is `0/0`, NaN; the square root of NaN being NaN, the call
succeeds and appends the rendering of NaN to every row.  NaN being rendered
as `NaN`, the row `g1, 5` with sample column `1` becomes `g1, 5, NaN`. -/
theorem C6_single_sample (L : Lib) (x : CharacterMatrix) (d : Dbl)
    (hs : L.sqrt Dbl.nan = Dbl.nan) (hr : L.render Dbl.nan = "NaN")
    (hv : ValidCols x.ncol [d]) :
    (∃ out, which_rows_with_no_sd_cpp L x [d] = some out
        ∧ ∀ i, i < x.nrow →
            CalculateVariance (sampleValues x [d] i) (meanOf (sampleValues x [d] i)) 1
                = some Dbl.nan
              ∧ Calculate_StandardDeviation L (sampleValues x [d] i) 1 = some Dbl.nan
              ∧ out.get? i x.ncol = some (L.render Dbl.nan))
      ∧ (which_rows_with_no_sd_cpp L (CharacterMatrix.ofRows 2 [["g1", "5"]]) [Dbl.fin 1]).map
          CharacterMatrix.toRows = some [["g1", "5", "NaN"]] := by
  have hsd : ∀ v, stdevOf L [v] = Dbl.nan := by
    intro v
    rw [stdevOf, single_value_variance, hs]
  constructor
  · refine ⟨augmented L x [d], which_rows_eq L x [d] hv, ?_⟩
    intro i hi
    have hvar := CalculateVariance_eq (sampleValues x [d] i) (meanOf (sampleValues x [d] i))
    have hcs := Calculate_StandardDeviation_eq L (sampleValues x [d] i)
    rw [augmented_get_new L x [d] i hi]
    simp only [sampleValues, List.map_cons, List.map_nil, List.length_singleton] at hvar hcs ⊢
    rw [hvar, hcs, single_value_variance, hsd]
    exact ⟨rfl, rfl, rfl⟩
  · rw [which_rows_eq L _ _ (by decide), Option.map_some', augmented_toRows]
    have hrow : (CharacterMatrix.ofRows 2 [["g1", "5"]]).row 0 = ["g1", "5"] := by decide
    have hn : (CharacterMatrix.ofRows 2 [["g1", "5"]]).nrow = 1 := rfl
    have h1 : List.range 1 = [0] := rfl
    simp [hn, h1, hrow, sampleValues, hsd, hr]

theorem C6_single_sample_witness :
    refLib.sqrt Dbl.nan = Dbl.nan ∧ refLib.render Dbl.nan = "NaN"
      ∧ ValidCols (CharacterMatrix.ofRows 3 [["g3", "inf", "7"], ["g4", "x", "1.5"]]).ncol
          [Dbl.fin 2]
      ∧ (∃ out, which_rows_with_no_sd_cpp refLib
              (CharacterMatrix.ofRows 3 [["g3", "inf", "7"], ["g4", "x", "1.5"]]) [Dbl.fin 2]
            = some out
          ∧ ∀ i, i < (CharacterMatrix.ofRows 3 [["g3", "inf", "7"], ["g4", "x", "1.5"]]).nrow →
              CalculateVariance
                  (sampleValues (CharacterMatrix.ofRows 3 [["g3", "inf", "7"], ["g4", "x", "1.5"]])
                    [Dbl.fin 2] i)
                  (meanOf
                    (sampleValues
                      (CharacterMatrix.ofRows 3 [["g3", "inf", "7"], ["g4", "x", "1.5"]])
                      [Dbl.fin 2] i)) 1
                  = some Dbl.nan
                ∧ Calculate_StandardDeviation refLib
                    (sampleValues
                      (CharacterMatrix.ofRows 3 [["g3", "inf", "7"], ["g4", "x", "1.5"]])
                      [Dbl.fin 2] i) 1 = some Dbl.nan
                ∧ out.get? i (CharacterMatrix.ofRows 3 [["g3", "inf", "7"], ["g4", "x", "1.5"]]).ncol
                    = some (refLib.render Dbl.nan))
      ∧ (which_rows_with_no_sd_cpp refLib (CharacterMatrix.ofRows 2 [["g1", "5"]])
            [Dbl.fin 1]).map CharacterMatrix.toRows = some [["g1", "5", "NaN"]] :=
  ⟨rfl, rfl, by decide,
    C6_single_sample refLib (CharacterMatrix.ofRows 3 [["g3", "inf", "7"], ["g4", "x", "1.5"]])
      (Dbl.fin 2) rfl rfl (by decide)⟩

/-- C7 (as amended): the program checks no index.  When a sample entry designates
no column of the grid and the grid has at least one row, the first row already
reads outside the grid and the call has no result at all; on a grid without
rows nothing is read and the call returns the empty grid, one column wider. -/
theorem C7_out_of_range (L : Lib) (x : CharacterMatrix) (sampleCols : List Dbl)
    (hv : ¬ ValidCols x.ncol sampleCols) :
    (0 < x.nrow → which_rows_with_no_sd_cpp L x sampleCols = none)
      ∧ (x.nrow = 0 →
          which_rows_with_no_sd_cpp L x sampleCols = some (CharacterMatrix.new 0 (x.ncol + 1))) := by
  constructor
  · intro h0
    unfold which_rows_with_no_sd_cpp
    exact forUpTo_none _ 0 (rowBody_none L x sampleCols 0 hv) x.nrow h0 _
  · intro h0
    unfold which_rows_with_no_sd_cpp
    simp only [h0]
    rfl

theorem C7_out_of_range_witness :
    ¬ ValidCols (CharacterMatrix.ofRows 2 [["g1", "5"]]).ncol [Dbl.fin 1, Dbl.fin 2]
      ∧ (0 < (CharacterMatrix.ofRows 2 [["g1", "5"]]).nrow →
          which_rows_with_no_sd_cpp refLib (CharacterMatrix.ofRows 2 [["g1", "5"]])
            [Dbl.fin 1, Dbl.fin 2] = none)
      ∧ ((CharacterMatrix.ofRows 2 [["g1", "5"]]).nrow = 0 →
          which_rows_with_no_sd_cpp refLib (CharacterMatrix.ofRows 2 [["g1", "5"]])
              [Dbl.fin 1, Dbl.fin 2]
            = some (CharacterMatrix.new 0 ((CharacterMatrix.ofRows 2 [["g1", "5"]]).ncol + 1))) :=
  ⟨by decide,
    C7_out_of_range refLib (CharacterMatrix.ofRows 2 [["g1", "5"]]) [Dbl.fin 1, Dbl.fin 2]
      (by decide)⟩

/-- C7, as stated, fails: on a grid with two columns and no row, the sample
column `5` is out of range and the call still returns a grid (the empty one with
three columns) instead of failing. -/
theorem C7_counterexample :
    ¬ ValidCols (CharacterMatrix.ofRows 2 []).ncol [Dbl.fin 5]
      ∧ which_rows_with_no_sd_cpp refLib (CharacterMatrix.ofRows 2 []) [Dbl.fin 5]
          = some (CharacterMatrix.new 0 3)
      ∧ which_rows_with_no_sd_cpp refLib (CharacterMatrix.ofRows 2 []) [Dbl.fin 5] ≠ none :=
  ⟨by decide, rfl, by simp [which_rows_with_no_sd_cpp, CharacterMatrix.ofRows, forUpTo]⟩

/-- C8 (as amended): a cell whose text, after white space and an optional sign,
begins with neither a digit, nor a point and a digit, nor `inf` nor `nan` in
any letter case, counts as `0`: replacing it by the text `0` succeeds and
leaves the cell appended to every row unchanged.  In particular, with sample
columns `1, 2` the row `g1, abc, 4` has the parsed values `0, 4`, mean `2`,
variance `8`, and gets the rendering of the square root of `8` appended. -/
theorem C8_parse_fallback (L : Lib) (x : CharacterMatrix) (sampleCols : List Dbl) (i j : Nat)
    (hv : ValidCols x.ncol sampleCols) (hi : i < x.nrow) (hj : j < x.ncol)
    (hn : NoConversion (x.cell i j)) :
    (atof (x.cell i j) = Dbl.fin 0
      ∧ ∃ xr out outr, x.set? i j "0" = some xr
          ∧ which_rows_with_no_sd_cpp L x sampleCols = some out
          ∧ which_rows_with_no_sd_cpp L xr sampleCols = some outr
          ∧ ∀ r, r < x.nrow → outr.get? r x.ncol = out.get? r x.ncol)
      ∧ sampleValues (CharacterMatrix.ofRows 3 [["g1", "abc", "4"]]) [Dbl.fin 1, Dbl.fin 2] 0
          = [Dbl.fin 0, Dbl.fin 4]
      ∧ CalculateMean [Dbl.fin 0, Dbl.fin 4] 2 = some (Dbl.fin 2)
      ∧ CalculateVariance [Dbl.fin 0, Dbl.fin 4] (Dbl.fin 2) 2 = some (Dbl.fin 8)
      ∧ (which_rows_with_no_sd_cpp L (CharacterMatrix.ofRows 3 [["g1", "abc", "4"]])
            [Dbl.fin 1, Dbl.fin 2]).map CharacterMatrix.toRows
          = some [["g1", "abc", "4", L.render (L.sqrt (Dbl.fin 8))]] := by
  have hzero : atof (x.cell i j) = Dbl.fin 0 := atof_noConversion hn
  have hvals : sampleValues (CharacterMatrix.ofRows 3 [["g1", "abc", "4"]])
      [Dbl.fin 1, Dbl.fin 2] 0 = [Dbl.fin 0, Dbl.fin 4] := by
    have h2 : Int.toNat 2 = 2 := rfl
    norm_num [sampleValues, CharacterMatrix.ofRows, colIndex, Dbl.toIndex, Rat.floor_def',
      atof_abc, atof_4, h2]
  refine ⟨⟨hzero, ?_⟩, hvals, ?_, ?_, ?_⟩
  · have hset : x.set? i j "0"
        = some ⟨x.nrow, x.ncol, fun a b => if a = i ∧ b = j then "0" else x.cell a b⟩ := by
      simp [CharacterMatrix.set?, hi, hj]
    refine ⟨_, augmented L x sampleCols, _, hset, which_rows_eq L x sampleCols hv,
      which_rows_eq L _ sampleCols hv, ?_⟩
    intro r hr
    have h := augmented_get_new L
      ⟨x.nrow, x.ncol, fun a b => if a = i ∧ b = j then "0" else x.cell a b⟩ sampleCols r hr
    rw [sampleValues_set x _ sampleCols i j "0" hset (by rw [atof_0, hzero]) r] at h
    rw [augmented_get_new L x sampleCols r hr]
    exact h
  · have h := CalculateMean_eq [Dbl.fin 0, Dbl.fin 4]
    rwa [mean_zero_four] at h
  · have h := CalculateVariance_eq [Dbl.fin 0, Dbl.fin 4] (Dbl.fin 2)
    rwa [variance_zero_four] at h
  · rw [which_rows_eq L _ _ (by decide), Option.map_some', augmented_toRows]
    have hrow : (CharacterMatrix.ofRows 3 [["g1", "abc", "4"]]).row 0 = ["g1", "abc", "4"] := by
      decide
    have hn1 : (CharacterMatrix.ofRows 3 [["g1", "abc", "4"]]).nrow = 1 := rfl
    have h1 : List.range 1 = [0] := rfl
    simp [hn1, h1, hrow, hvals, stdevOf, mean_zero_four, variance_zero_four]

theorem C8_parse_fallback_witness :
    ValidCols (CharacterMatrix.ofRows 3 [["g2", "n/a", "4"]]).ncol [Dbl.fin 1, Dbl.fin 2]
      ∧ 0 < (CharacterMatrix.ofRows 3 [["g2", "n/a", "4"]]).nrow
      ∧ 1 < (CharacterMatrix.ofRows 3 [["g2", "n/a", "4"]]).ncol
      ∧ NoConversion ((CharacterMatrix.ofRows 3 [["g2", "n/a", "4"]]).cell 0 1)
      ∧ (atof ((CharacterMatrix.ofRows 3 [["g2", "n/a", "4"]]).cell 0 1) = Dbl.fin 0
        ∧ ∃ xr out outr, (CharacterMatrix.ofRows 3 [["g2", "n/a", "4"]]).set? 0 1 "0" = some xr
            ∧ which_rows_with_no_sd_cpp refLib (CharacterMatrix.ofRows 3 [["g2", "n/a", "4"]])
                [Dbl.fin 1, Dbl.fin 2] = some out
            ∧ which_rows_with_no_sd_cpp refLib xr [Dbl.fin 1, Dbl.fin 2] = some outr
            ∧ ∀ r, r < (CharacterMatrix.ofRows 3 [["g2", "n/a", "4"]]).nrow →
                outr.get? r (CharacterMatrix.ofRows 3 [["g2", "n/a", "4"]]).ncol
                  = out.get? r (CharacterMatrix.ofRows 3 [["g2", "n/a", "4"]]).ncol)
      ∧ sampleValues (CharacterMatrix.ofRows 3 [["g1", "abc", "4"]]) [Dbl.fin 1, Dbl.fin 2] 0
          = [Dbl.fin 0, Dbl.fin 4]
      ∧ CalculateMean [Dbl.fin 0, Dbl.fin 4] 2 = some (Dbl.fin 2)
      ∧ CalculateVariance [Dbl.fin 0, Dbl.fin 4] (Dbl.fin 2) 2 = some (Dbl.fin 8)
      ∧ (which_rows_with_no_sd_cpp refLib (CharacterMatrix.ofRows 3 [["g1", "abc", "4"]])
            [Dbl.fin 1, Dbl.fin 2]).map CharacterMatrix.toRows
          = some [["g1", "abc", "4", refLib.render (refLib.sqrt (Dbl.fin 8))]] :=
  ⟨by decide, by decide, by decide, by decide,
    C8_parse_fallback refLib (CharacterMatrix.ofRows 3 [["g2", "n/a", "4"]])
      [Dbl.fin 1, Dbl.fin 2] 0 1 (by decide) (by decide) (by decide) (by decide)⟩

/-- C8, as stated, fails: the text `nan` holds no digit, yet the row
`g1, nan, 0` with sample columns `1, 2` gets `NaN` appended, while the row with
`nan` replaced by `0` gets `0` appended. -/
theorem C8_counterexample :
    (∀ c ∈ "nan".toList, isDigit c = false)
      ∧ (which_rows_with_no_sd_cpp refLib (CharacterMatrix.ofRows 3 [["g1", "nan", "0"]])
            [Dbl.fin 1, Dbl.fin 2]).map CharacterMatrix.toRows
          = some [["g1", "nan", "0", "NaN"]]
      ∧ (which_rows_with_no_sd_cpp refLib (CharacterMatrix.ofRows 3 [["g1", "0", "0"]])
            [Dbl.fin 1, Dbl.fin 2]).map CharacterMatrix.toRows
          = some [["g1", "0", "0", "0"]] := by
  have h2 : Int.toNat 2 = 2 := rfl
  have h1 : List.range 1 = [0] := rfl
  refine ⟨by decide, ?_, ?_⟩
  · rw [which_rows_eq refLib _ _ (by decide), Option.map_some', augmented_toRows]
    have hvals : sampleValues (CharacterMatrix.ofRows 3 [["g1", "nan", "0"]])
        [Dbl.fin 1, Dbl.fin 2] 0 = [Dbl.nan, Dbl.fin 0] := by
      norm_num [sampleValues, CharacterMatrix.ofRows, colIndex, Dbl.toIndex, Rat.floor_def',
        atof_nan, atof_0, h2]
    have hrow : (CharacterMatrix.ofRows 3 [["g1", "nan", "0"]]).row 0 = ["g1", "nan", "0"] := by
      decide
    have hn1 : (CharacterMatrix.ofRows 3 [["g1", "nan", "0"]]).nrow = 1 := rfl
    have hr : refLib.render Dbl.nan = "NaN" := rfl
    simp [hn1, h1, hrow, hvals, stdev_nan_zero refLib rfl, hr]
  · rw [which_rows_eq refLib _ _ (by decide), Option.map_some', augmented_toRows]
    have hvals : sampleValues (CharacterMatrix.ofRows 3 [["g1", "0", "0"]])
        [Dbl.fin 1, Dbl.fin 2] 0 = [Dbl.fin 0, Dbl.fin 0] := by
      norm_num [sampleValues, CharacterMatrix.ofRows, colIndex, Dbl.toIndex, Rat.floor_def',
        atof_0, h2]
    have hrow : (CharacterMatrix.ofRows 3 [["g1", "0", "0"]]).row 0 = ["g1", "0", "0"] := by
      decide
    have hn1 : (CharacterMatrix.ofRows 3 [["g1", "0", "0"]]).nrow = 1 := rfl
    have hq : refLib.sqrt (Dbl.fin 0) = Dbl.fin 0 := by
      simp [refLib, sqrtRef, isqrt, isqrtBelow]
    have hs : refLib.render (refLib.sqrt (Dbl.fin 0)) = "0" := by
      rw [hq]
      decide
    simp [hn1, h1, hrow, hvals, stdevOf, variance_zero_zero, hs]

/-- C9: for two grids of the same shape and valid sample columns, when row `i`
of both holds the same text in every sample column, the cell appended to row `i`
is the same in both outputs, whatever the other rows and the other columns
hold. -/
theorem C9_row_independence (L : Lib) (x y : CharacterMatrix) (sampleCols : List Dbl) (i : Nat)
    (hr : x.nrow = y.nrow) (hc : x.ncol = y.ncol) (hv : ValidCols x.ncol sampleCols)
    (hi : i < x.nrow)
    (hsame : ∀ d ∈ sampleCols, x.get? i (colIndex d) = y.get? i (colIndex d)) :
    ∃ ox oy, which_rows_with_no_sd_cpp L x sampleCols = some ox
      ∧ which_rows_with_no_sd_cpp L y sampleCols = some oy
      ∧ ox.get? i x.ncol = oy.get? i y.ncol := by
  refine ⟨augmented L x sampleCols, augmented L y sampleCols, which_rows_eq L x sampleCols hv,
    which_rows_eq L y sampleCols (hc ▸ hv), ?_⟩
  rw [augmented_get_new L x sampleCols i hi, augmented_get_new L y sampleCols i (hr ▸ hi)]
  have hvals : sampleValues x sampleCols i = sampleValues y sampleCols i := by
    unfold sampleValues
    apply List.map_congr_left
    intro d hd
    have h := hsame d hd
    have hcol := (validCol_spec (hv d hd)).2
    simp only [CharacterMatrix.get?, hi, hcol, and_self, if_true] at h
    rw [if_pos ⟨hr ▸ hi, hc ▸ hcol⟩] at h
    rw [Option.some.inj h]
  rw [hvals]

theorem C9_row_independence_witness :
    (CharacterMatrix.ofRows 3 [["a", "1", "2"], ["b", "3", "5"]]).nrow
        = (CharacterMatrix.ofRows 3 [["z", "7", "7"], ["c", "3", "5"]]).nrow
      ∧ (CharacterMatrix.ofRows 3 [["a", "1", "2"], ["b", "3", "5"]]).ncol
        = (CharacterMatrix.ofRows 3 [["z", "7", "7"], ["c", "3", "5"]]).ncol
      ∧ ValidCols (CharacterMatrix.ofRows 3 [["a", "1", "2"], ["b", "3", "5"]]).ncol
          [Dbl.fin 1, Dbl.fin 2]
      ∧ 1 < (CharacterMatrix.ofRows 3 [["a", "1", "2"], ["b", "3", "5"]]).nrow
      ∧ (∀ d ∈ [Dbl.fin 1, Dbl.fin 2],
          (CharacterMatrix.ofRows 3 [["a", "1", "2"], ["b", "3", "5"]]).get? 1 (colIndex d)
            = (CharacterMatrix.ofRows 3 [["z", "7", "7"], ["c", "3", "5"]]).get? 1 (colIndex d))
      ∧ ∃ ox oy,
          which_rows_with_no_sd_cpp refLib
              (CharacterMatrix.ofRows 3 [["a", "1", "2"], ["b", "3", "5"]]) [Dbl.fin 1, Dbl.fin 2]
            = some ox
          ∧ which_rows_with_no_sd_cpp refLib
              (CharacterMatrix.ofRows 3 [["z", "7", "7"], ["c", "3", "5"]]) [Dbl.fin 1, Dbl.fin 2]
            = some oy
          ∧ ox.get? 1 (CharacterMatrix.ofRows 3 [["a", "1", "2"], ["b", "3", "5"]]).ncol
            = oy.get? 1 (CharacterMatrix.ofRows 3 [["z", "7", "7"], ["c", "3", "5"]]).ncol :=
  ⟨rfl, rfl, by decide, by decide, by decide,
    C9_row_independence refLib (CharacterMatrix.ofRows 3 [["a", "1", "2"], ["b", "3", "5"]])
      (CharacterMatrix.ofRows 3 [["z", "7", "7"], ["c", "3", "5"]]) [Dbl.fin 1, Dbl.fin 2] 1
      rfl rfl (by decide) (by decide) (by decide)⟩

/-- C10 (as amended): the value fed into the statistic for a sample cell is the
conversion of its text by `atof`.  A text made of a decimal number (an optional
sign, digits, optionally a point and digits) followed by characters none of which
is a digit converts to the value of the number, unless it is the digit `0`
followed by `x` or `X`, which starts a hexadecimal number; a text that, after
white space and an optional sign, begins with neither a digit, nor a point and a
digit, nor `inf` nor `nan` in any letter case converts to `0`. -/
theorem C10_numeric_start (x : CharacterMatrix) (sampleCols : List Dbl) (i : Nat)
    (sign : Option Bool) (whole : List Char) (frac : Option (List Char))
    (suffix : List Char) (a : String)
    (hv : ValidCols x.ncol sampleCols) (hi : i < x.nrow)
    (hw : whole ≠ []) (hwd : ∀ c ∈ whole, isDigit c = true)
    (hfd : ∀ c ∈ frac.getD [], isDigit c = true) (hs : ∀ c ∈ suffix, isDigit c = false)
    (hx : ¬ (whole = ['0'] ∧ frac = none
              ∧ (suffix.head? = some 'x' ∨ suffix.head? = some 'X')))
    (ha : NoConversion a) :
    extractExpressions x sampleCols i sampleCols.length
          (List.replicate sampleCols.length Dbl.nan)
        = some (sampleCols.map fun d => atof (x.cell i (colIndex d)))
      ∧ atof (String.mk (decimalText sign whole frac ++ suffix))
        = Dbl.fin (decimalValue sign whole frac)
      ∧ atof "12abc" = Dbl.fin 12
      ∧ atof a = Dbl.fin 0 :=
  ⟨extract_eq x sampleCols i hi hv,
    atof_decimal sign whole frac suffix hw hwd hfd (fun c hc => by simp [hs c hc]) hx,
    atof_12abc, atof_noConversion ha⟩

theorem C10_numeric_start_witness :
    ValidCols (CharacterMatrix.ofRows 2 [["g5", "12abc"]]).ncol [Dbl.fin 1]
      ∧ 0 < (CharacterMatrix.ofRows 2 [["g5", "12abc"]]).nrow
      ∧ ['1', '2'] ≠ [] ∧ (∀ c ∈ ['1', '2'], isDigit c = true)
      ∧ (∀ c ∈ (none : Option (List Char)).getD [], isDigit c = true)
      ∧ (∀ c ∈ ['a', 'b', 'c'], isDigit c = false)
      ∧ ¬ (['1', '2'] = ['0'] ∧ (none : Option (List Char)) = none
            ∧ (['a', 'b', 'c'].head? = some 'x' ∨ ['a', 'b', 'c'].head? = some 'X'))
      ∧ NoConversion "xyz"
      ∧ extractExpressions (CharacterMatrix.ofRows 2 [["g5", "12abc"]]) [Dbl.fin 1] 0
            [Dbl.fin 1].length (List.replicate [Dbl.fin 1].length Dbl.nan)
          = some ([Dbl.fin 1].map fun d =>
              atof ((CharacterMatrix.ofRows 2 [["g5", "12abc"]]).cell 0 (colIndex d)))
      ∧ atof (String.mk (decimalText none ['1', '2'] none ++ ['a', 'b', 'c']))
          = Dbl.fin (decimalValue none ['1', '2'] none)
      ∧ atof "12abc" = Dbl.fin 12
      ∧ atof "xyz" = Dbl.fin 0 :=
  ⟨by decide, by decide, by decide, by decide, by decide, by decide, by decide, by decide,
    C10_numeric_start (CharacterMatrix.ofRows 2 [["g5", "12abc"]]) [Dbl.fin 1] 0 none ['1', '2']
      none ['a', 'b', 'c'] "xyz" (by decide) (by decide) (by decide) (by decide) (by decide)
      (by decide) (by decide) (by decide)⟩

/-- C10, as stated, fails: `0xA` is the decimal number `0` followed by two
characters that are not digits and converts to `10`, not to `0`; `nan` and
`inf` hold no digit and convert to NaN and to infinity, not to `0`. -/
theorem C10_counterexample :
    "0xA" = String.mk (decimalText none ['0'] none ++ ['x', 'A'])
      ∧ (∀ c ∈ ['x', 'A'], isDigit c = false)
      ∧ decimalValue none ['0'] none = 0
      ∧ atof "0xA" = Dbl.fin 10
      ∧ (∀ c ∈ "nan".toList ++ "inf".toList, isDigit c = false)
      ∧ atof "nan" = Dbl.nan
      ∧ atof "inf" = Dbl.pinf :=
  ⟨by decide, by decide, by simp [decimalValue, digitsVal, digitVal, isDigit], atof_0xA,
    by decide, atof_nan, atof_inf⟩

/-- C11 (as amended): duplicate sample entries are accepted and each occurrence is
one observation: the buffer filled for a row is the list of the parsed cells
designated by `sampleCols`, entry by entry and in order, so it has as many
values as `sampleCols` has entries.  With the same column twice, a row whose
cell in that column parses to a finite number gets the standard deviation `0`
appended (the square root of `0` being `0`). -/
theorem C11_duplicates (L : Lib) (x : CharacterMatrix) (sampleCols : List Dbl) (d : Dbl)
    (i : Nat) (q : ℚ)
    (hv : ValidCols x.ncol sampleCols) (hd : ValidCol x.ncol d) (hi : i < x.nrow)
    (hs : L.sqrt (Dbl.fin 0) = Dbl.fin 0) (hq : atof (x.cell i (colIndex d)) = Dbl.fin q) :
    (∃ e, extractExpressions x sampleCols i sampleCols.length
              (List.replicate sampleCols.length Dbl.nan) = some e
          ∧ e = sampleCols.map (fun c => atof (x.cell i (colIndex c)))
          ∧ e.length = sampleCols.length)
      ∧ ∃ out, which_rows_with_no_sd_cpp L x [d, d] = some out
          ∧ sampleValues x [d, d] i = [Dbl.fin q, Dbl.fin q]
          ∧ Calculate_StandardDeviation L (sampleValues x [d, d] i) [d, d].length
              = some (Dbl.fin 0)
          ∧ out.get? i x.ncol = some (L.render (Dbl.fin 0)) := by
  have hvd : ValidCols x.ncol [d, d] := by
    intro c hc
    simp only [List.mem_cons, List.mem_singleton, List.not_mem_nil, or_false, or_self] at hc
    rw [hc]
    exact hd
  have hvals : sampleValues x [d, d] i = [Dbl.fin q, Dbl.fin q] := by
    simp [sampleValues, hq]
  have hvar : exactVariance [q, q] = 0 := by
    rw [exactVariance_eq_zero_iff [q, q] (by simp)]
    intro a ha b hb
    simp only [List.mem_cons, List.mem_singleton, List.not_mem_nil, or_false, or_self] at ha hb
    rw [ha, hb]
  have hsd : Calculate_StandardDeviation L [Dbl.fin q, Dbl.fin q] 2 = some (Dbl.fin 0) := by
    have h := stdev_fin L [q, q] (by simp)
    rw [hvar, hs] at h
    exact h
  refine ⟨⟨_, extract_eq x sampleCols i hi hv, rfl, by simp [sampleValues]⟩,
    augmented L x [d, d], which_rows_eq L x [d, d] hvd, hvals, ?_, ?_⟩
  · rw [hvals]
    exact hsd
  · rw [augmented_get_new L x [d, d] i hi, hvals]
    have h1 := Calculate_StandardDeviation_eq L [Dbl.fin q, Dbl.fin q]
    rw [show ([Dbl.fin q, Dbl.fin q] : List Dbl).length = 2 from rfl, hsd] at h1
    rw [← Option.some.inj h1]

theorem C11_duplicates_witness :
    ValidCols (CharacterMatrix.ofRows 3 [["g8", "2", "4"]]).ncol [Dbl.fin 2, Dbl.fin 1, Dbl.fin 2]
      ∧ ValidCol (CharacterMatrix.ofRows 3 [["g8", "2", "4"]]).ncol (Dbl.fin 2)
      ∧ 0 < (CharacterMatrix.ofRows 3 [["g8", "2", "4"]]).nrow
      ∧ refLib.sqrt (Dbl.fin 0) = Dbl.fin 0
      ∧ atof ((CharacterMatrix.ofRows 3 [["g8", "2", "4"]]).cell 0 (colIndex (Dbl.fin 2)))
          = Dbl.fin 4
      ∧ (∃ e, extractExpressions (CharacterMatrix.ofRows 3 [["g8", "2", "4"]])
                [Dbl.fin 2, Dbl.fin 1, Dbl.fin 2] 0 [Dbl.fin 2, Dbl.fin 1, Dbl.fin 2].length
                (List.replicate [Dbl.fin 2, Dbl.fin 1, Dbl.fin 2].length Dbl.nan) = some e
            ∧ e = [Dbl.fin 2, Dbl.fin 1, Dbl.fin 2].map
                (fun c => atof ((CharacterMatrix.ofRows 3 [["g8", "2", "4"]]).cell 0 (colIndex c)))
            ∧ e.length = [Dbl.fin 2, Dbl.fin 1, Dbl.fin 2].length)
      ∧ ∃ out, which_rows_with_no_sd_cpp refLib (CharacterMatrix.ofRows 3 [["g8", "2", "4"]])
              [Dbl.fin 2, Dbl.fin 2] = some out
          ∧ sampleValues (CharacterMatrix.ofRows 3 [["g8", "2", "4"]]) [Dbl.fin 2, Dbl.fin 2] 0
              = [Dbl.fin 4, Dbl.fin 4]
          ∧ Calculate_StandardDeviation refLib
              (sampleValues (CharacterMatrix.ofRows 3 [["g8", "2", "4"]]) [Dbl.fin 2, Dbl.fin 2] 0)
              [Dbl.fin 2, Dbl.fin 2].length = some (Dbl.fin 0)
          ∧ out.get? 0 (CharacterMatrix.ofRows 3 [["g8", "2", "4"]]).ncol
              = some (refLib.render (Dbl.fin 0)) :=
  have hcell : atof ((CharacterMatrix.ofRows 3 [["g8", "2", "4"]]).cell 0 (colIndex (Dbl.fin 2)))
      = Dbl.fin 4 := by
    have h2 : Int.toNat 2 = 2 := rfl
    norm_num [CharacterMatrix.ofRows, colIndex, Dbl.toIndex, Rat.floor_def', atof_4, h2]
  have hsq : refLib.sqrt (Dbl.fin 0) = Dbl.fin 0 := by
    simp [refLib, sqrtRef, isqrt, isqrtBelow]
  ⟨by decide, by decide, by decide, hsq, hcell,
    C11_duplicates refLib (CharacterMatrix.ofRows 3 [["g8", "2", "4"]])
      [Dbl.fin 2, Dbl.fin 1, Dbl.fin 2] (Dbl.fin 2) 0 4 (by decide) (by decide) (by decide)
      hsq hcell⟩

/-- C11, as stated, fails: with the sample columns `1, 1` the row `g1, nan` has
the parsed values NaN, NaN and gets `NaN` appended, which is not the rendering
of the standard deviation `0`. -/
theorem C11_counterexample :
    ValidCols (CharacterMatrix.ofRows 2 [["g1", "nan"]]).ncol [Dbl.fin 1, Dbl.fin 1]
      ∧ sampleValues (CharacterMatrix.ofRows 2 [["g1", "nan"]]) [Dbl.fin 1, Dbl.fin 1] 0
          = [Dbl.nan, Dbl.nan]
      ∧ Calculate_StandardDeviation refLib [Dbl.nan, Dbl.nan] 2 = some Dbl.nan
      ∧ (which_rows_with_no_sd_cpp refLib (CharacterMatrix.ofRows 2 [["g1", "nan"]])
            [Dbl.fin 1, Dbl.fin 1]).map CharacterMatrix.toRows = some [["g1", "nan", "NaN"]]
      ∧ "NaN" ≠ refLib.render (Dbl.fin 0) := by
  have hvals : sampleValues (CharacterMatrix.ofRows 2 [["g1", "nan"]]) [Dbl.fin 1, Dbl.fin 1] 0
      = [Dbl.nan, Dbl.nan] := by
    norm_num [sampleValues, CharacterMatrix.ofRows, colIndex, Dbl.toIndex, Rat.floor_def',
      atof_nan]
  have hsd : stdevOf refLib [Dbl.nan, Dbl.nan] = Dbl.nan := stdev_nan_nan refLib rfl
  refine ⟨by decide, hvals, ?_, ?_, by decide⟩
  · have h := Calculate_StandardDeviation_eq refLib [Dbl.nan, Dbl.nan]
    rw [hsd] at h
    exact h
  · rw [which_rows_eq refLib _ _ (by decide), Option.map_some', augmented_toRows]
    have hrow : (CharacterMatrix.ofRows 2 [["g1", "nan"]]).row 0 = ["g1", "nan"] := by decide
    have hn1 : (CharacterMatrix.ofRows 2 [["g1", "nan"]]).nrow = 1 := rfl
    have h1 : List.range 1 = [0] := rfl
    have hr : refLib.render Dbl.nan = "NaN" := rfl
    simp [hn1, h1, hrow, hvals, hsd, hr]

/-- C12: when every sample entry designates a column of the grid, no access of
`which_rows_with_no_sd_cpp` leaves its array.  For every row: each `sampleCols[j]`
exists and converts to a column inside the input grid, and slot `j` of the
`k`-slot buffer exists; the kernel reads the `k` slots of the filled buffer; the
copy reads and writes columns below `ncol`, and the appended cell is column
`ncol` of an output with `ncol + 1` columns.  So every loop, every row and the
whole call return a value. -/
theorem C12_in_bounds (L : Lib) (x : CharacterMatrix) (sampleCols : List Dbl)
    (hv : ValidCols x.ncol sampleCols) :
    (which_rows_with_no_sd_cpp L x sampleCols).isSome
      ∧ ∀ i, i < x.nrow →
          (∀ j, j < sampleCols.length → ∀ e : List Dbl, e.length = sampleCols.length →
              ∃ col c a, sampleCols.get? j = some col ∧ Dbl.toIndex col = some c
                ∧ x.get? i c = some a ∧ (setAt? e j (atof a)).isSome)
            ∧ (∃ e, extractExpressions x sampleCols i sampleCols.length
                    (List.replicate sampleCols.length Dbl.nan) = some e
                ∧ e.length = sampleCols.length
                ∧ (∀ j, j < sampleCols.length → (e.get? j).isSome)
                ∧ (CalculateMean e sampleCols.length).isSome
                ∧ (∀ mean, (CalculateVariance e mean sampleCols.length).isSome)
                ∧ (Calculate_StandardDeviation L e sampleCols.length).isSome)
            ∧ ∀ out : CharacterMatrix, out.nrow = x.nrow → out.ncol = x.ncol + 1 →
                (∀ j, j < x.ncol → ∀ v, (x.get? i j).isSome ∧ (out.set? i j v).isSome)
                  ∧ (∃ out1, copyRow x i out = some out1
                      ∧ ∀ v, (out1.set? i x.ncol v).isSome)
                  ∧ (rowBody L x sampleCols sampleCols.length i out).isSome := by
  constructor
  · rw [which_rows_eq L x sampleCols hv]
    rfl
  · intro i hi
    have hlen : (sampleValues x sampleCols i).length = sampleCols.length := by
      simp [sampleValues]
    refine ⟨?_, ?_, ?_⟩
    · intro j hj e he
      obtain ⟨h1, h2⟩ := validCol_spec (hv _ (List.getElem_mem hj))
      refine ⟨sampleCols[j], colIndex sampleCols[j], x.cell i (colIndex sampleCols[j]), ?_, h1,
        ?_, setAt_isSome e j _ (he ▸ hj)⟩
      · rw [List.get?_eq_getElem?, List.getElem?_eq_getElem hj]
      · simp [CharacterMatrix.get?, hi, h2]
    · refine ⟨sampleValues x sampleCols i, extract_eq x sampleCols i hi hv, hlen, ?_, ?_, ?_, ?_⟩
      · intro j hj
        rw [List.get?_eq_getElem?, List.getElem?_eq_getElem (hlen ▸ hj)]
        rfl
      · rw [← hlen, CalculateMean_eq]
        rfl
      · intro mean
        rw [← hlen, CalculateVariance_eq]
        rfl
      · rw [← hlen, Calculate_StandardDeviation_eq]
        rfl
    · intro out hr hc
      refine ⟨?_, ?_, ?_⟩
      · intro j hj v
        constructor
        · simp [CharacterMatrix.get?, hi, hj]
        · simp [CharacterMatrix.set?, hr, hc, hi, Nat.lt_succ_of_lt hj]
      · obtain ⟨out1, h1, h2, h3⟩ := copyRow_isSome x i hi out hr hc
        refine ⟨out1, h1, ?_⟩
        intro v
        simp [CharacterMatrix.set?, h2, h3, hi]
      · rw [rowBody_eq L x sampleCols i hi hv out hr hc]
        rfl

theorem C12_in_bounds_witness :
    ValidCols (CharacterMatrix.ofRows 3 [["a", "1", "x"], ["b", "7", "4"]]).ncol
        [Dbl.fin 2, Dbl.fin 1, Dbl.fin 2]
      ∧ (which_rows_with_no_sd_cpp refLib
            (CharacterMatrix.ofRows 3 [["a", "1", "x"], ["b", "7", "4"]])
            [Dbl.fin 2, Dbl.fin 1, Dbl.fin 2]).isSome
      ∧ ∀ i, i < (CharacterMatrix.ofRows 3 [["a", "1", "x"], ["b", "7", "4"]]).nrow →
          (∀ j, j < [Dbl.fin 2, Dbl.fin 1, Dbl.fin 2].length →
              ∀ e : List Dbl, e.length = [Dbl.fin 2, Dbl.fin 1, Dbl.fin 2].length →
              ∃ col c a, [Dbl.fin 2, Dbl.fin 1, Dbl.fin 2].get? j = some col
                ∧ Dbl.toIndex col = some c
                ∧ (CharacterMatrix.ofRows 3 [["a", "1", "x"], ["b", "7", "4"]]).get? i c = some a
                ∧ (setAt? e j (atof a)).isSome)
            ∧ (∃ e, extractExpressions (CharacterMatrix.ofRows 3 [["a", "1", "x"], ["b", "7", "4"]])
                    [Dbl.fin 2, Dbl.fin 1, Dbl.fin 2] i [Dbl.fin 2, Dbl.fin 1, Dbl.fin 2].length
                    (List.replicate [Dbl.fin 2, Dbl.fin 1, Dbl.fin 2].length Dbl.nan) = some e
                ∧ e.length = [Dbl.fin 2, Dbl.fin 1, Dbl.fin 2].length
                ∧ (∀ j, j < [Dbl.fin 2, Dbl.fin 1, Dbl.fin 2].length → (e.get? j).isSome)
                ∧ (CalculateMean e [Dbl.fin 2, Dbl.fin 1, Dbl.fin 2].length).isSome
                ∧ (∀ mean, (CalculateVariance e mean [Dbl.fin 2, Dbl.fin 1, Dbl.fin 2].length).isSome)
                ∧ (Calculate_StandardDeviation refLib e [Dbl.fin 2, Dbl.fin 1, Dbl.fin 2].length).isSome)
            ∧ ∀ out : CharacterMatrix,
                out.nrow = (CharacterMatrix.ofRows 3 [["a", "1", "x"], ["b", "7", "4"]]).nrow →
                out.ncol = (CharacterMatrix.ofRows 3 [["a", "1", "x"], ["b", "7", "4"]]).ncol + 1 →
                (∀ j, j < (CharacterMatrix.ofRows 3 [["a", "1", "x"], ["b", "7", "4"]]).ncol →
                    ∀ v, ((CharacterMatrix.ofRows 3 [["a", "1", "x"], ["b", "7", "4"]]).get? i j).isSome
                      ∧ (out.set? i j v).isSome)
                  ∧ (∃ out1, copyRow (CharacterMatrix.ofRows 3 [["a", "1", "x"], ["b", "7", "4"]]) i out
                        = some out1
                      ∧ ∀ v, (out1.set? i
                          (CharacterMatrix.ofRows 3 [["a", "1", "x"], ["b", "7", "4"]]).ncol v).isSome)
                  ∧ (rowBody refLib (CharacterMatrix.ofRows 3 [["a", "1", "x"], ["b", "7", "4"]])
                      [Dbl.fin 2, Dbl.fin 1, Dbl.fin 2] [Dbl.fin 2, Dbl.fin 1, Dbl.fin 2].length i out).isSome :=
  ⟨by decide,
    C12_in_bounds refLib (CharacterMatrix.ofRows 3 [["a", "1", "x"], ["b", "7", "4"]])
      [Dbl.fin 2, Dbl.fin 1, Dbl.fin 2] (by decide)⟩

/-- C13: in exact arithmetic (finite values, a square root that is zero only at
zero), for at least two values `Calculate_StandardDeviation` returns `0` if and
only if all the values are equal; so the standard deviation appended to a row
whose parsed sample cells are these values is `0` exactly when they are all the
same number. -/
theorem C13_zero_iff_equal (L : Lib) (x : CharacterMatrix) (sampleCols : List Dbl) (i : Nat)
    (qs : List ℚ)
    (hs : ∀ v : ℚ, 0 ≤ v → (L.sqrt (Dbl.fin v) = Dbl.fin 0 ↔ v = 0))
    (hk : 2 ≤ qs.length) (hv : ValidCols x.ncol sampleCols) (hi : i < x.nrow)
    (hvals : sampleValues x sampleCols i = qs.map Dbl.fin) :
    (Calculate_StandardDeviation L (qs.map Dbl.fin) qs.length = some (Dbl.fin 0)
        ↔ ∀ a ∈ qs, ∀ b ∈ qs, a = b)
      ∧ ∃ out sd, which_rows_with_no_sd_cpp L x sampleCols = some out
          ∧ Calculate_StandardDeviation L (sampleValues x sampleCols i) sampleCols.length
              = some sd
          ∧ out.get? i x.ncol = some (L.render sd)
          ∧ (sd = Dbl.fin 0 ↔ ∀ a ∈ qs, ∀ b ∈ qs, a = b) := by
  have hiff : L.sqrt (Dbl.fin (exactVariance qs)) = Dbl.fin 0 ↔ ∀ a ∈ qs, ∀ b ∈ qs, a = b := by
    rw [hs _ (exactVariance_nonneg qs hk), exactVariance_eq_zero_iff qs hk]
  have hlen : sampleCols.length = qs.length := by
    have := congrArg List.length hvals
    simpa [sampleValues] using this
  constructor
  · rw [stdev_fin L qs hk]
    constructor
    · intro h
      exact hiff.mp (Option.some.inj h)
    · intro h
      rw [hiff.mpr h]
  · refine ⟨augmented L x sampleCols, L.sqrt (Dbl.fin (exactVariance qs)),
      which_rows_eq L x sampleCols hv, ?_, ?_, hiff⟩
    · rw [hvals, hlen, stdev_fin L qs hk]
    · rw [augmented_get_new L x sampleCols i hi, hvals]
      have h1 := Calculate_StandardDeviation_eq L (qs.map Dbl.fin)
      rw [List.length_map, stdev_fin L qs hk] at h1
      rw [← Option.some.inj h1]

theorem C13_zero_iff_equal_witness :
    (∀ v : ℚ, 0 ≤ v → (refLib.sqrt (Dbl.fin v) = Dbl.fin 0 ↔ v = 0))
      ∧ 2 ≤ [(2 : ℚ), 4].length
      ∧ ValidCols (CharacterMatrix.ofRows 3 [["g8", "2", "4"]]).ncol [Dbl.fin 1, Dbl.fin 2]
      ∧ 0 < (CharacterMatrix.ofRows 3 [["g8", "2", "4"]]).nrow
      ∧ sampleValues (CharacterMatrix.ofRows 3 [["g8", "2", "4"]]) [Dbl.fin 1, Dbl.fin 2] 0
          = [(2 : ℚ), 4].map Dbl.fin
      ∧ (Calculate_StandardDeviation refLib ([(2 : ℚ), 4].map Dbl.fin) [(2 : ℚ), 4].length
            = some (Dbl.fin 0)
          ↔ ∀ a ∈ [(2 : ℚ), 4], ∀ b ∈ [(2 : ℚ), 4], a = b)
      ∧ ∃ out sd, which_rows_with_no_sd_cpp refLib (CharacterMatrix.ofRows 3 [["g8", "2", "4"]])
              [Dbl.fin 1, Dbl.fin 2] = some out
          ∧ Calculate_StandardDeviation refLib
              (sampleValues (CharacterMatrix.ofRows 3 [["g8", "2", "4"]]) [Dbl.fin 1, Dbl.fin 2] 0)
              [Dbl.fin 1, Dbl.fin 2].length = some sd
          ∧ out.get? 0 (CharacterMatrix.ofRows 3 [["g8", "2", "4"]]).ncol
              = some (refLib.render sd)
          ∧ (sd = Dbl.fin 0 ↔ ∀ a ∈ [(2 : ℚ), 4], ∀ b ∈ [(2 : ℚ), 4], a = b) :=
  ⟨sqrtRef_zero_iff, by decide, by decide, by decide, sampleValues_g8,
    C13_zero_iff_equal refLib (CharacterMatrix.ofRows 3 [["g8", "2", "4"]])
      [Dbl.fin 1, Dbl.fin 2] 0 [2, 4] sqrtRef_zero_iff (by decide) (by decide) (by decide)
      sampleValues_g8⟩

/-- C14: in exact arithmetic, for at least two finite values and the mean that
`CalculateMean` returns for them, `CalculateVariance` returns a non-negative
number; the square root is therefore applied to a non-negative number, and
(the square root of a non-negative number being non-negative) the result of
`Calculate_StandardDeviation` is non-negative. -/
theorem C14_variance_nonneg (L : Lib) (qs : List ℚ)
    (hs : ∀ v : ℚ, 0 ≤ v → ∃ r : ℚ, 0 ≤ r ∧ L.sqrt (Dbl.fin v) = Dbl.fin r)
    (hk : 2 ≤ qs.length) :
    ∃ m v r : ℚ, CalculateMean (qs.map Dbl.fin) qs.length = some (Dbl.fin m)
      ∧ CalculateVariance (qs.map Dbl.fin) (Dbl.fin m) qs.length = some (Dbl.fin v)
      ∧ 0 ≤ v
      ∧ Calculate_StandardDeviation L (qs.map Dbl.fin) qs.length = some (L.sqrt (Dbl.fin v))
      ∧ L.sqrt (Dbl.fin v) = Dbl.fin r
      ∧ 0 ≤ r := by
  have hne : qs ≠ [] := by
    rintro rfl
    simp at hk
  obtain ⟨r, hr0, hr⟩ := hs _ (exactVariance_nonneg qs hk)
  refine ⟨exactMean qs, exactVariance qs, r, ?_, ?_, exactVariance_nonneg qs hk,
    stdev_fin L qs hk, hr, hr0⟩
  · have h := CalculateMean_eq (qs.map Dbl.fin)
    rwa [List.length_map, meanOf_fin qs hne] at h
  · have h := CalculateVariance_eq (qs.map Dbl.fin) (Dbl.fin (exactMean qs))
    rw [List.length_map, varianceOf_fin qs _ hk] at h
    exact h

theorem C14_variance_nonneg_witness :
    (∀ v : ℚ, 0 ≤ v → ∃ r : ℚ, 0 ≤ r ∧ refLib.sqrt (Dbl.fin v) = Dbl.fin r)
      ∧ 2 ≤ [(1 : ℚ), 2, 4].length
      ∧ ∃ m v r : ℚ, CalculateMean ([(1 : ℚ), 2, 4].map Dbl.fin) [(1 : ℚ), 2, 4].length
            = some (Dbl.fin m)
          ∧ CalculateVariance ([(1 : ℚ), 2, 4].map Dbl.fin) (Dbl.fin m) [(1 : ℚ), 2, 4].length
            = some (Dbl.fin v)
          ∧ 0 ≤ v
          ∧ Calculate_StandardDeviation refLib ([(1 : ℚ), 2, 4].map Dbl.fin)
              [(1 : ℚ), 2, 4].length = some (refLib.sqrt (Dbl.fin v))
          ∧ refLib.sqrt (Dbl.fin v) = Dbl.fin r
          ∧ 0 ≤ r :=
  ⟨sqrtRef_nonneg, by decide, C14_variance_nonneg refLib [1, 2, 4] sqrtRef_nonneg (by decide)⟩

/-- C15: in exact arithmetic, for at least two finite values and every constant
`c`, `Calculate_StandardDeviation` of the values with `c` added to each equals
`Calculate_StandardDeviation` of the values. -/
theorem C15_translation_invariance (L : Lib) (qs : List ℚ) (c : ℚ) (hk : 2 ≤ qs.length) :
    Calculate_StandardDeviation L ((qs.map Dbl.fin).map fun v => v + Dbl.fin c) qs.length
      = Calculate_StandardDeviation L (qs.map Dbl.fin) qs.length := by
  have hne : qs ≠ [] := by
    rintro rfl
    simp at hk
  have h1 := stdev_fin L (qs.map fun q => q + c) (by simpa using hk)
  rw [List.length_map] at h1
  rw [map_add_fin, h1, exactVariance_translate qs c hne, stdev_fin L qs hk]

theorem C15_translation_invariance_witness :
    2 ≤ [(2 : ℚ), 4, 9].length
      ∧ Calculate_StandardDeviation refLib
            (([(2 : ℚ), 4, 9].map Dbl.fin).map fun v => v + Dbl.fin 100) [(2 : ℚ), 4, 9].length
          = Calculate_StandardDeviation refLib ([(2 : ℚ), 4, 9].map Dbl.fin)
              [(2 : ℚ), 4, 9].length :=
  ⟨by decide, C15_translation_invariance refLib [2, 4, 9] 100 (by decide)⟩

/-- C16: for sample column lists that are permutations of each other, one of
them (hence both) designating columns of the grid, the calls succeed and append
the same standard deviation to every row. -/
theorem C16_order_independence (L : Lib) (x : CharacterMatrix) (s t : List Dbl)
    (hv : ValidCols x.ncol s) (hp : s.Perm t) :
    ∃ os ot, which_rows_with_no_sd_cpp L x s = some os
      ∧ which_rows_with_no_sd_cpp L x t = some ot
      ∧ ∀ i, i < x.nrow →
          Calculate_StandardDeviation L (sampleValues x s i) s.length
              = Calculate_StandardDeviation L (sampleValues x t i) t.length
            ∧ os.get? i x.ncol = ot.get? i x.ncol := by
  refine ⟨augmented L x s, augmented L x t, which_rows_eq L x s hv,
    which_rows_eq L x t (validCols_perm hp hv), ?_⟩
  intro i hi
  have hperm : (sampleValues x s i).Perm (sampleValues x t i) := hp.map _
  have hsd := stdevOf_perm L hperm
  have h1 := Calculate_StandardDeviation_eq L (sampleValues x s i)
  have h2 := Calculate_StandardDeviation_eq L (sampleValues x t i)
  simp only [sampleValues, List.length_map] at h1 h2 hsd
  constructor
  · simp only [sampleValues]
    rw [h1, h2, hsd]
  · rw [augmented_get_new L x s i hi, augmented_get_new L x t i hi]
    simp only [sampleValues]
    rw [hsd]

theorem C16_order_independence_witness :
    ValidCols (CharacterMatrix.ofRows 4 [["g9", "1", "2", "7"]]).ncol
        [Dbl.fin 1, Dbl.fin 2, Dbl.fin 3]
      ∧ [Dbl.fin 1, Dbl.fin 2, Dbl.fin 3].Perm [Dbl.fin 3, Dbl.fin 1, Dbl.fin 2]
      ∧ ∃ os ot,
          which_rows_with_no_sd_cpp refLib (CharacterMatrix.ofRows 4 [["g9", "1", "2", "7"]])
              [Dbl.fin 1, Dbl.fin 2, Dbl.fin 3] = some os
          ∧ which_rows_with_no_sd_cpp refLib (CharacterMatrix.ofRows 4 [["g9", "1", "2", "7"]])
              [Dbl.fin 3, Dbl.fin 1, Dbl.fin 2] = some ot
          ∧ ∀ i, i < (CharacterMatrix.ofRows 4 [["g9", "1", "2", "7"]]).nrow →
              Calculate_StandardDeviation refLib
                  (sampleValues (CharacterMatrix.ofRows 4 [["g9", "1", "2", "7"]])
                    [Dbl.fin 1, Dbl.fin 2, Dbl.fin 3] i) [Dbl.fin 1, Dbl.fin 2, Dbl.fin 3].length
                = Calculate_StandardDeviation refLib
                    (sampleValues (CharacterMatrix.ofRows 4 [["g9", "1", "2", "7"]])
                      [Dbl.fin 3, Dbl.fin 1, Dbl.fin 2] i)
                    [Dbl.fin 3, Dbl.fin 1, Dbl.fin 2].length
                ∧ os.get? i (CharacterMatrix.ofRows 4 [["g9", "1", "2", "7"]]).ncol
                    = ot.get? i (CharacterMatrix.ofRows 4 [["g9", "1", "2", "7"]]).ncol :=
  ⟨by decide, by decide,
    C16_order_independence refLib (CharacterMatrix.ofRows 4 [["g9", "1", "2", "7"]])
      [Dbl.fin 1, Dbl.fin 2, Dbl.fin 3] [Dbl.fin 3, Dbl.fin 1, Dbl.fin 2] (by decide)
      (by decide)⟩

end Ctr
